import Mathlib

/-!
Verification of the IEEE-754 floating-point pipeline library (Libre-SOC ieee754fpu).

This file gives a shallow embedding, in Lean, of the parts of the library that the
checked claims are about:

* `FPRoundingMode` and its three per-mode policy functions
  (`src/ieee754/fpcommon/fpbase.py`, class `FPRoundingMode`);
* the `Overflow` record and its `roundz` round-up decision
  (`src/ieee754/fpcommon/fpbase.py`, class `Overflow`);
* the rounding pipeline stage (`src/ieee754/fpcommon/roundz.py`, `FPRoundMod`);
* the packing pipeline stage (`src/ieee754/fpcommon/pack.py`, `FPPackMod`);
* the `FPFormat` descriptor with its classification predicates and
  `FPFormat.standard` constructor (`src/ieee754/fpcommon/fpbase.py`);
* the addition special-cases stage (`src/ieee754/fpadd/specialcases.py`,
  `FPAddSpecialCasesMod`);
* the FMA special-cases and main stages (`src/ieee754/fpfma/special_cases.py`,
  `src/ieee754/fpfma/main_stage.py`).

Hardware signals of width `w` are embedded as `Nat` (unsigned signals, with
explicit `% 2^w` where the hardware truncates) or `Int` (signed signals).
Combinational pipeline stages become pure functions from their input record to
their output record.
-/

namespace FPU

/-! ## Rounding modes (`fpbase.py`, `class FPRoundingMode`) -/

/-- The seven rounding modes, with the same names as the source enum. -/
inductive FPRoundingMode
  | RNE
  | RTZ
  | RTP
  | RTN
  | RNA
  | RTOP
  | RTON
  deriving DecidableEq, Repr

/-- The numeric enum value of each mode (`RNE = 0b00` ... `RTON = 0b110`). -/
def FPRoundingMode.value : FPRoundingMode → Nat
  | .RNE => 0
  | .RTZ => 1
  | .RTP => 2
  | .RTN => 3
  | .RNA => 4
  | .RTOP => 5
  | .RTON => 6

/-- `FPRoundingMode.make_array(f)`: the lookup table `l` with `l[rm.value] = f rm`. -/
def FPRoundingMode.make_array (f : FPRoundingMode → α) : List α :=
  [f .RNE, f .RTZ, f .RTP, f .RTN, f .RNA, f .RTOP, f .RTON]

/-- `overflow_rounds_to_inf`: true if an overflow should round to `inf`,
false if it should round to `max_normal`. -/
def FPRoundingMode.overflow_rounds_to_inf : FPRoundingMode → Bool → Bool
  | .RNE, _ => true
  | .RTZ, _ => false
  | .RTP, sign => !sign
  | .RTN, sign => sign
  | .RNA, _ => true
  | .RTOP, _ => false
  | .RTON, _ => false

/-- `underflow_rounds_to_zero`: true if an underflow should round to `zero`,
false if it should round to `min_denormal`. -/
def FPRoundingMode.underflow_rounds_to_zero : FPRoundingMode → Bool → Bool
  | .RNE, _ => true
  | .RTZ, _ => true
  | .RTP, sign => sign
  | .RTN, sign => !sign
  | .RNA, _ => true
  | .RTOP, _ => false
  | .RTON, _ => false

/-- `zero_sign`: which sign an exact zero result should have when it is not
otherwise determined (`true` = negative). -/
def FPRoundingMode.zero_sign : FPRoundingMode → Bool
  | .RNE => false
  | .RTZ => false
  | .RTP => false
  | .RTN => true
  | .RNA => false
  | .RTOP => false
  | .RTON => true

/-! ## The `Overflow` record and the round-up decision (`fpbase.py`, `class Overflow`) -/

/-- The `Overflow` record: guard / round / sticky bits, the mantissa lsb `m0`,
the result sign and the rounding mode.  (The `fpflags` field is not modelled:
no checked claim mentions it.) -/
structure Overflow where
  guard : Bool
  round_bit : Bool
  sticky : Bool
  m0 : Bool
  sign : Bool
  rm : FPRoundingMode

/-- round-up decision assuming `rm == RNE`. -/
def Overflow.roundz_rne (o : Overflow) : Bool :=
  o.guard && (o.round_bit || o.sticky || o.m0)

/-- round-up decision assuming `rm == RNA`. -/
def Overflow.roundz_rna (o : Overflow) : Bool :=
  o.guard

/-- round-up decision assuming `rm == RTN`. -/
def Overflow.roundz_rtn (o : Overflow) : Bool :=
  o.sign && (o.guard || o.round_bit || o.sticky)

/-- round-up decision assuming `rm` is `RTOP` or `RTON`. -/
def Overflow.roundz_rto (o : Overflow) : Bool :=
  !o.m0 && (o.guard || o.round_bit || o.sticky)

/-- round-up decision assuming `rm == RTP`. -/
def Overflow.roundz_rtp (o : Overflow) : Bool :=
  !o.sign && (o.guard || o.round_bit || o.sticky)

/-- round-up decision assuming `rm == RTZ`. -/
def Overflow.roundz_rtz (_o : Overflow) : Bool :=
  false

/-- `Overflow.roundz`: round-up decision for the current rounding mode,
selected from a `make_array` lookup table indexed by the mode's enum value. -/
def Overflow.roundz (o : Overflow) : Bool :=
  (FPRoundingMode.make_array fun rm =>
    match rm with
    | .RNA => o.roundz_rna
    | .RNE => o.roundz_rne
    | .RTN => o.roundz_rtn
    | .RTOP => o.roundz_rto
    | .RTON => o.roundz_rto
    | .RTP => o.roundz_rtp
    | .RTZ => o.roundz_rtz).getD o.rm.value false

/-! ## The rounding stage (`roundz.py`, `FPRoundMod`) -/

/-- The sign / exponent / mantissa working record (`FPNumBaseRecord` with
`m_extra=False`): `e` is the unbiased exponent on a widened signed signal,
`m` the mantissa on an unsigned signal of the format's mantissa width + 1. -/
structure FPNumRec where
  s : Bool
  e : Int
  m : Nat
  deriving DecidableEq, Repr

/-- Input of the rounding stage (`FPNorm1Data`, from
`fpcommon/postnormalise.py`): the normalised number `z`, the precomputed
round-up decision `roundz`, and the special-cases bypass (`out_do_z`, `oz`).
The pipe context (muxid) is plumbing only and is not modelled. -/
structure FPNorm1Data where
  z : FPNumRec
  roundz : Bool
  out_do_z : Bool
  oz : Nat
  rm : FPRoundingMode

/-- Output of the rounding stage (`FPRoundData` in `roundz.py`). -/
structure FPRoundData where
  z : FPNumRec
  out_do_z : Bool
  oz : Nat
  rm : FPRoundingMode

/-- The rounding stage `FPRoundMod.elaborate`, on a mantissa signal of width
`mw`: copy the input, add 1 to the mantissa when `roundz` (wrapping at `2^mw`
as the hardware signal does), and bump the exponent when the mantissa was all
ones (`msb1s`) and `roundz` holds. -/
def FPRoundMod (mw : Nat) (i : FPNorm1Data) : FPRoundData :=
  let msb1s : Bool := i.z.m = 2 ^ mw - 1
  { z := { s := i.z.s
           m := if i.roundz then (i.z.m + 1) % 2 ^ mw else i.z.m
           e := if msb1s && i.roundz then i.z.e + 1 else i.z.e }
    out_do_z := i.out_do_z
    oz := i.oz
    rm := i.rm }

/-! ## Helper: the `roundz` table lookup agrees with direct dispatch -/

theorem roundz_eq_dispatch (o : Overflow) :
    o.roundz = match o.rm with
      | .RNE => o.roundz_rne
      | .RTZ => o.roundz_rtz
      | .RTP => o.roundz_rtp
      | .RTN => o.roundz_rtn
      | .RNA => o.roundz_rna
      | .RTOP => o.roundz_rto
      | .RTON => o.roundz_rto := by
  cases h : o.rm <;>
    simp [Overflow.roundz, FPRoundingMode.make_array, FPRoundingMode.value, h]

/-! ## Claim C3 -/

/-- C3: for every rounding mode and sign bit `s`, the three mode policy
functions match the spec table: `overflow_rounds_to_inf s` is true for RNE and
RNA, false for RTZ, RTOP and RTON, `!s` for RTP and `s` for RTN;
`underflow_rounds_to_zero s` is true for RNE, RTZ and RNA, false for RTOP and
RTON, `s` for RTP and `!s` for RTN; `zero_sign` is negative exactly for RTN
and RTON. -/
theorem claim_C3 (s : Bool) :
    (FPRoundingMode.RNE.overflow_rounds_to_inf s = true
      ∧ FPRoundingMode.RNA.overflow_rounds_to_inf s = true
      ∧ FPRoundingMode.RTZ.overflow_rounds_to_inf s = false
      ∧ FPRoundingMode.RTOP.overflow_rounds_to_inf s = false
      ∧ FPRoundingMode.RTON.overflow_rounds_to_inf s = false
      ∧ FPRoundingMode.RTP.overflow_rounds_to_inf s = !s
      ∧ FPRoundingMode.RTN.overflow_rounds_to_inf s = s)
    ∧ (FPRoundingMode.RNE.underflow_rounds_to_zero s = true
      ∧ FPRoundingMode.RTZ.underflow_rounds_to_zero s = true
      ∧ FPRoundingMode.RNA.underflow_rounds_to_zero s = true
      ∧ FPRoundingMode.RTOP.underflow_rounds_to_zero s = false
      ∧ FPRoundingMode.RTON.underflow_rounds_to_zero s = false
      ∧ FPRoundingMode.RTP.underflow_rounds_to_zero s = s
      ∧ FPRoundingMode.RTN.underflow_rounds_to_zero s = !s)
    ∧ (∀ rm : FPRoundingMode,
        rm.zero_sign = true ↔ (rm = .RTN ∨ rm = .RTON)) := by
  refine ⟨by cases s <;> decide, by cases s <;> decide, ?_⟩
  intro rm
  cases rm <;> decide

/-! ## Claim C2 -/

/-- C2: the round-up decision `roundz` matches the per-mode table (RNE:
`guard ∧ (round ∨ sticky ∨ m0)`; RNA: `guard`; RTN: `sign ∧ (g ∨ r ∨ s)`;
RTP: `¬sign ∧ (g ∨ r ∨ s)`; RTOP/RTON: `¬m0 ∧ (g ∨ r ∨ s)`; RTZ: false), and
the rounding stage adds 1 to the mantissa exactly when `roundz` holds,
incrementing the exponent exactly when that increment carries out of an
all-ones mantissa (which then overflows to all-zero). -/
theorem claim_C2 (ov : Overflow) (mw : Nat) (i : FPNorm1Data)
    (hm : i.z.m < 2 ^ mw) :
    (ov.roundz = match ov.rm with
      | .RNE => ov.guard && (ov.round_bit || ov.sticky || ov.m0)
      | .RNA => ov.guard
      | .RTN => ov.sign && (ov.guard || ov.round_bit || ov.sticky)
      | .RTP => !ov.sign && (ov.guard || ov.round_bit || ov.sticky)
      | .RTOP => !ov.m0 && (ov.guard || ov.round_bit || ov.sticky)
      | .RTON => !ov.m0 && (ov.guard || ov.round_bit || ov.sticky)
      | .RTZ => false)
    ∧ (i.roundz = true → i.z.m ≠ 2 ^ mw - 1 →
        (FPRoundMod mw i).z.m = i.z.m + 1 ∧ (FPRoundMod mw i).z.e = i.z.e)
    ∧ (i.roundz = true → i.z.m = 2 ^ mw - 1 →
        (FPRoundMod mw i).z.m = 0 ∧ (FPRoundMod mw i).z.e = i.z.e + 1)
    ∧ (i.roundz = false → (FPRoundMod mw i).z = i.z) := by
  have hpow : 1 ≤ 2 ^ mw := Nat.one_le_two_pow
  refine ⟨?_, ?_, ?_, ?_⟩
  · rw [roundz_eq_dispatch]
    cases ov.rm <;>
      simp [Overflow.roundz_rne, Overflow.roundz_rna, Overflow.roundz_rtn,
        Overflow.roundz_rtp, Overflow.roundz_rto, Overflow.roundz_rtz]
  · intro hrz hne
    have hlt : i.z.m + 1 < 2 ^ mw := by omega
    simp [FPRoundMod, hrz, hne, Nat.mod_eq_of_lt hlt]
  · intro hrz heq
    have hcarry : 2 ^ mw - 1 + 1 = 2 ^ mw := by omega
    constructor
    · simp [FPRoundMod, hrz, heq, hcarry]
    · simp [FPRoundMod, hrz, heq]
  · intro hrz
    cases hz : i.z
    simp [FPRoundMod, hrz, hz]

/-- Witness for C2 at a concrete input: mantissa width 2, all-ones mantissa
`3`, round-up in RNE. -/
theorem claim_C2_witness :
    ((3 : Nat) < 2 ^ 2) ∧
    (FPRoundMod 2 ⟨⟨false, 0, 3⟩, true, false, 0, .RNE⟩).z.m = 0 ∧
    (FPRoundMod 2 ⟨⟨false, 0, 3⟩, true, false, 0, .RNE⟩).z.e = 0 + 1 := by
  refine ⟨by decide, ?_⟩
  have h := claim_C2 ⟨true, false, false, true, false, .RNE⟩ 2
    ⟨⟨false, 0, 3⟩, true, false, 0, .RNE⟩ (by decide)
  exact h.2.2.1 rfl (by decide)

/-! ## Claim C8 -/

/-- C8: when guard, round and sticky are all clear, `roundz` is false in every
rounding mode, and the rounding stage then leaves the number `z` (sign,
exponent and mantissa) unchanged: an exact intermediate result is never
altered by rounding. -/
theorem claim_C8 (ov : Overflow) (mw : Nat) (i : FPNorm1Data)
    (hg : ov.guard = false) (hr : ov.round_bit = false)
    (hs : ov.sticky = false) (hlink : i.roundz = ov.roundz) :
    ov.roundz = false ∧ (FPRoundMod mw i).z = i.z := by
  have hz : ov.roundz = false := by
    rw [roundz_eq_dispatch]
    cases ov.rm <;>
      simp [Overflow.roundz_rne, Overflow.roundz_rna, Overflow.roundz_rtn,
        Overflow.roundz_rtp, Overflow.roundz_rto, Overflow.roundz_rtz,
        hg, hr, hs]
  refine ⟨hz, ?_⟩
  cases hzz : i.z
  simp [FPRoundMod, hlink, hz, hzz]

/-- Witness for C8 at a concrete input: all bits clear in mode RTN, mantissa 2. -/
theorem claim_C8_witness :
    (Overflow.roundz ⟨false, false, false, true, true, .RTN⟩ = false) ∧
    (FPRoundMod 3 ⟨⟨true, -1, 2⟩, false, false, 0, .RTN⟩).z = ⟨true, -1, 2⟩ := by
  have h := claim_C8 ⟨false, false, false, true, true, .RTN⟩ 3
    ⟨⟨true, -1, 2⟩, false, false, 0, .RTN⟩ rfl rfl rfl (by decide)
  exact h

/-! ## Bit-manipulation helper lemmas -/

theorem lor_shiftRight (a b k : Nat) :
    (a ||| b) >>> k = (a >>> k) ||| (b >>> k) := by
  apply Nat.eq_of_testBit_eq
  intro i
  simp [Nat.testBit_shiftRight, Nat.testBit_or]

theorem lor_two_pow_sub_one_of_lt {x n : Nat} (h : x < 2 ^ n) :
    x ||| (2 ^ n - 1) = 2 ^ n - 1 := by
  apply Nat.eq_of_testBit_eq
  intro i
  simp only [Nat.testBit_or, Nat.testBit_two_pow_sub_one]
  by_cases hi : i < n
  · simp [hi]
  · have hx : x.testBit i = false := by
      apply Nat.testBit_lt_two_pow
      exact lt_of_lt_of_le h (Nat.pow_le_pow_right (by norm_num) (by omega))
    simp [hi, hx]

theorem two_pow_mul_lor_eq_add {b : Nat} (k a : Nat) (h : b < 2 ^ k) :
    (2 ^ k * a) ||| b = 2 ^ k * a + b :=
  (Nat.mul_add_lt_is_or h a).symm

theorem two_pow_mul_lor_two_pow_mul (k a b : Nat) :
    (2 ^ k * a) ||| (2 ^ k * b) = 2 ^ k * (a ||| b) := by
  apply Nat.eq_of_testBit_eq
  intro i
  have ha : 2 ^ k * a = a <<< k := by rw [Nat.shiftLeft_eq, Nat.mul_comm]
  have hb : 2 ^ k * b = b <<< k := by rw [Nat.shiftLeft_eq, Nat.mul_comm]
  have hab : 2 ^ k * (a ||| b) = (a ||| b) <<< k := by
    rw [Nat.shiftLeft_eq, Nat.mul_comm]
  rw [ha, hb, hab]
  simp only [Nat.testBit_shiftLeft, Nat.testBit_or]
  by_cases hi : i ≥ k <;> simp [hi]

theorem lor_two_pow_of_lt {r k : Nat} (h : r < 2 ^ k) :
    r ||| 2 ^ k = 2 ^ k + r := by
  rw [Nat.lor_comm]
  have := two_pow_mul_lor_eq_add k 1 h
  simpa using this

/-! ## `FPFormat` (`fpbase.py`, `class FPFormat`) -/

/-- Binary floating-point format descriptor: exponent field width, stored
mantissa field width, explicit-integer-bit flag, sign flag. -/
structure FPFormat where
  e_width : Nat
  m_width : Nat
  has_int_bit : Bool := false
  has_sign : Bool := true
  deriving DecidableEq, Repr

namespace FPFormat

/-- Total number of bits in the format. -/
def width (fmt : FPFormat) : Nat :=
  (if fmt.has_sign then 1 else 0) + fmt.e_width + fmt.m_width

/-- Mask of the mantissa field: `(1 << m_width) - 1`. -/
def mantissa_mask (fmt : FPFormat) : Nat := (1 <<< fmt.m_width) - 1

/-- Value of the exponent field designating infinity/NaN: all ones. -/
def exponent_inf_nan (fmt : FPFormat) : Nat := (1 <<< fmt.e_width) - 1

/-- Mask of the exponent field. -/
def exponent_mask (fmt : FPFormat) : Nat :=
  fmt.exponent_inf_nan <<< fmt.m_width

/-- Value of the exponent field designating denormal/zero. -/
def exponent_denormal_zero (_fmt : FPFormat) : Nat := 0

/-- The exponent bias: `2^(e_width-1) - 1`. -/
def exponent_bias (fmt : FPFormat) : Nat := (1 <<< (fmt.e_width - 1)) - 1

/-- Number of mantissa bits that are fraction bits. -/
def fraction_width (fmt : FPFormat) : Nat :=
  fmt.m_width - (if fmt.has_int_bit then 1 else 0)

/-- Maximum (unbiased) exponent, i.e. the exponent of infinity/NaN. -/
def e_max (fmt : FPFormat) : Int :=
  (fmt.exponent_inf_nan : Int) - (fmt.exponent_bias : Int)

/-- Unbiased exponent of the denormal/zero exponent field. -/
def e_sub (fmt : FPFormat) : Int :=
  (fmt.exponent_denormal_zero : Int) - (fmt.exponent_bias : Int)

/-- Sign bit of `x`. -/
def get_sign_field (fmt : FPFormat) (x : Nat) : Nat :=
  x >>> (fmt.e_width + fmt.m_width)

/-- Raw exponent field of `x` (no bias subtracted). -/
def get_exponent_field (fmt : FPFormat) (x : Nat) : Nat :=
  (x >>> fmt.m_width) &&& fmt.exponent_inf_nan

/-- Unbiased exponent of `x` (signed). -/
def get_exponent (fmt : FPFormat) (x : Nat) : Int :=
  (fmt.get_exponent_field x : Int) - (fmt.exponent_bias : Int)

/-- Mantissa field of `x`. -/
def get_mantissa_field (fmt : FPFormat) (x : Nat) : Nat :=
  x &&& fmt.mantissa_mask

/-- Exponent of `x` adjusted for the mathematically correct subnormal
exponent (`get_exponent_value`). -/
def get_exponent_value (fmt : FPFormat) (x : Nat) : Int :=
  (fmt.get_exponent_field x : Int)
    + (if fmt.get_exponent_field x = fmt.exponent_denormal_zero then 1 else 0)
    - (fmt.exponent_bias : Int)

/-- Mantissa of `x` with the implicit bit made explicit. -/
def get_mantissa_value (fmt : FPFormat) (x : Nat) : Nat :=
  if fmt.has_int_bit then fmt.get_mantissa_field x
  else
    ((if fmt.get_exponent_field x ≠ fmt.exponent_denormal_zero then 1 else 0)
        <<< fmt.fraction_width) ||| fmt.get_mantissa_field x

/-- `x` is positive or negative zero. -/
def is_zero (fmt : FPFormat) (x : Nat) : Bool :=
  decide (fmt.get_exponent x = fmt.e_sub) && decide (fmt.get_mantissa_field x = 0)

/-- `x` is subnormal. -/
def is_subnormal (fmt : FPFormat) (x : Nat) : Bool :=
  decide (fmt.get_exponent x = fmt.e_sub) && decide (fmt.get_mantissa_field x ≠ 0)

/-- `x` is infinite. -/
def is_inf (fmt : FPFormat) (x : Nat) : Bool :=
  decide (fmt.get_exponent x = fmt.e_max) && decide (fmt.get_mantissa_field x = 0)

/-- `x` is a NaN (quiet or signalling). -/
def is_nan (fmt : FPFormat) (x : Nat) : Bool :=
  decide (fmt.get_exponent x = fmt.e_max) && decide (fmt.get_mantissa_field x ≠ 0)

/-- `x` is a quiet NaN. -/
def is_quiet_nan (fmt : FPFormat) (x : Nat) : Bool :=
  decide (fmt.get_exponent x = fmt.e_max)
    && decide (fmt.get_mantissa_field x ≠ 0)
    && decide (fmt.get_mantissa_field x &&& (1 <<< (fmt.m_width - 1)) ≠ 0)

/-- Convert `x` to a quiet NaN: set the top mantissa bit and the whole
exponent field. -/
def to_quiet_nan (fmt : FPFormat) (x : Nat) : Nat :=
  x ||| (1 <<< (fmt.m_width - 1)) ||| fmt.exponent_mask

/-- Zero with sign `sign`. -/
def zero (fmt : FPFormat) (sign : Bool) : Nat :=
  (if sign then 1 else 0) <<< (fmt.e_width + fmt.m_width)

/-- Infinity with sign `sign`. -/
def inf (fmt : FPFormat) (sign : Bool) : Nat :=
  fmt.zero sign ||| fmt.exponent_mask

/-- The default quiet NaN with sign `sign`. -/
def quiet_nan (fmt : FPFormat) (sign : Bool) : Nat :=
  fmt.to_quiet_nan (fmt.zero sign)

end FPFormat

/-! ## `FPFormat.standard` (`fpbase.py`) -/

/-- Fuel-driven floor of the base-2 logarithm: for `1 ≤ n ≤ fuel`,
`log2floor fuel n = ⌊log₂ n⌋` (see `log2floor_spec`). -/
def log2floor (fuel n : Nat) : Nat :=
  match fuel with
  | 0 => 0
  | fuel + 1 => if n ≤ 1 then 0 else log2floor fuel (n / 2) + 1

theorem log2floor_spec (fuel : Nat) : ∀ n : Nat, 1 ≤ n → n ≤ fuel →
    2 ^ log2floor fuel n ≤ n ∧ n < 2 ^ (log2floor fuel n + 1) := by
  induction fuel with
  | zero => intro n h1 h2; omega
  | succ fuel ih =>
    intro n h1 h2
    by_cases hn : n ≤ 1
    · have : n = 1 := by omega
      subst this
      simp [log2floor]
    · have hrec := ih (n / 2) (by omega) (by omega)
      have hval : log2floor (fuel + 1) n = log2floor fuel (n / 2) + 1 := by
        simp [log2floor, hn]
      rw [hval]
      set k := log2floor fuel (n / 2) with hk
      have hlo : 2 ^ k ≤ n / 2 := hrec.1
      have hhi : n / 2 < 2 ^ (k + 1) := hrec.2
      constructor
      · have : 2 ^ (k + 1) = 2 ^ k * 2 := by ring
        rw [this]
        omega
      · have : 2 ^ (k + 1 + 1) = 2 ^ (k + 1) * 2 := by ring
        rw [this]
        omega

/-- The exponent width used by `FPFormat.standard` for extended widths:
`round(4 * log2(width)) - 13`.  Exact rounding of `4·log₂ w = log₂ (w⁴)` to
the nearest integer `n` is characterised by `2^(2n-1) < w⁸ < 2^(2n+1)` (a tie
`w⁸ = 2^(2n∓1)` is impossible, see `claim_C6`), and that `n` equals
`(⌊log₂ (w⁸)⌋ + 1) / 2`. -/
def standardEWidth (w : Nat) : Nat :=
  (log2floor (w ^ 8) (w ^ 8) + 1) / 2 - 13

/-- `FPFormat.standard(width)`: the IEEE 754-2008 interchange format of the
given bit-width; `Except.error` models the `ValueError` raised for
unsupported widths. -/
def FPFormat.standard (width : Nat) : Except String FPFormat :=
  if width = 16 then .ok ⟨5, 10, false, true⟩
  else if width = 32 then .ok ⟨8, 23, false, true⟩
  else if width = 64 then .ok ⟨11, 52, false, true⟩
  else if width = 128 then .ok ⟨15, 112, false, true⟩
  else if 128 < width ∧ width % 32 = 0 then
    if 1000000 < width then .error "width too big"
    else .ok ⟨standardEWidth width, width - 1 - standardEWidth width,
              false, true⟩
  else .error "width must be the bit-width of a valid IEEE 754-2008 binary format"

/-! ## Claim C6 (corrected) -/

/-- An eighth power is never 2 to an odd power. -/
theorem pow8_ne_two_pow_odd {w L : Nat} (hL : L % 2 = 1) : w ^ 8 ≠ 2 ^ L := by
  intro h
  have hw : w ∣ 2 ^ L := h ▸ dvd_pow_self w (by norm_num)
  obtain ⟨k, _, rfl⟩ := (Nat.dvd_prime_pow Nat.prime_two).mp hw
  rw [← pow_mul] at h
  have := Nat.pow_right_injective (le_refl 2) h
  omega

/-- The claim "`FPFormat.standard` succeeds for all widths > 128 that are
multiples of 32, without further restriction" is false: width 1000032 is a
multiple of 32 greater than 128, yet `standard` raises
`ValueError("width too big")`. -/
theorem claim_C6_counterexample :
    128 < 1000032 ∧ 1000032 % 32 = 0 ∧
    FPFormat.standard 1000032 = .error "width too big" := by
  refine ⟨by norm_num, by norm_num, ?_⟩
  rfl

/-- C6 (amended): `FPFormat.standard` returns the IEEE-754-2008 interchange
formats for widths 16/32/64/128; for widths > 128 that are multiples of 32
*up to the arbitrary upper limit 1000000* it returns the extended format with
exponent width `round(4·log₂ width) − 13` (characterised exactly:
`e + 13 = n` with `2^(2n−1) < width⁸ < 2^(2n+1)`) and mantissa width
`width − 1 − e`; above 1000000 it fails fast with `ValueError("width too
big")`; every other width fails fast with a configuration `ValueError`. -/
theorem claim_C6 :
    (FPFormat.standard 16 = .ok ⟨5, 10, false, true⟩
      ∧ FPFormat.standard 32 = .ok ⟨8, 23, false, true⟩
      ∧ FPFormat.standard 64 = .ok ⟨11, 52, false, true⟩
      ∧ FPFormat.standard 128 = .ok ⟨15, 112, false, true⟩)
    ∧ (∀ w : Nat, 128 < w → w % 32 = 0 → w ≤ 1000000 →
        ∃ e : Nat, FPFormat.standard w = .ok ⟨e, w - 1 - e, false, true⟩
          ∧ 2 ^ (2 * (e + 13) - 1) < w ^ 8 ∧ w ^ 8 < 2 ^ (2 * (e + 13) + 1))
    ∧ (∀ w : Nat, 128 < w → w % 32 = 0 → 1000000 < w →
        FPFormat.standard w = .error "width too big")
    ∧ (∀ w : Nat, w ≠ 16 → w ≠ 32 → w ≠ 64 → w ≠ 128 →
        ¬(128 < w ∧ w % 32 = 0) →
        FPFormat.standard w =
          .error
            "width must be the bit-width of a valid IEEE 754-2008 binary format") := by
  refine ⟨⟨rfl, rfl, rfl, rfl⟩, ?_, ?_, ?_⟩
  · intro w h128 h32 hmax
    have hw160 : 160 ≤ w := by omega
    have hNpos : 1 ≤ w ^ 8 := Nat.one_le_pow _ _ (by omega)
    have hspec := log2floor_spec (w ^ 8) (w ^ 8) hNpos (le_refl _)
    set L := log2floor (w ^ 8) (w ^ 8) with hLdef
    have hLlo : 2 ^ L ≤ w ^ 8 := hspec.1
    have hLhi : w ^ 8 < 2 ^ (L + 1) := hspec.2
    have h160 : (160 : Nat) ^ 8 ≤ w ^ 8 := Nat.pow_le_pow_left hw160 8
    have h58 : (2 : Nat) ^ 58 ≤ w ^ 8 := le_trans (by norm_num) h160
    have hL58 : 58 ≤ L := by
      by_contra hcon
      have : L + 1 ≤ 58 := by omega
      have : (2 : Nat) ^ (L + 1) ≤ 2 ^ 58 := Nat.pow_le_pow_right (by norm_num) this
      omega
    refine ⟨standardEWidth w, ?_, ?_, ?_⟩
    · rw [FPFormat.standard]
      rw [if_neg (by omega), if_neg (by omega), if_neg (by omega),
        if_neg (by omega), if_pos ⟨h128, h32⟩, if_neg (by omega)]
    · -- lower bound of the rounding characterisation
      have he : standardEWidth w + 13 = (L + 1) / 2 := by
        have : 13 ≤ (L + 1) / 2 := by omega
        unfold standardEWidth
        omega
      rw [he]
      rcases Nat.even_or_odd L with hev | hod
      · obtain ⟨t, ht⟩ := hev
        have hn : (L + 1) / 2 = t := by omega
        have h2n1 : 2 * ((L + 1) / 2) - 1 = L - 1 := by omega
        rw [h2n1]
        calc 2 ^ (L - 1) < 2 ^ L := Nat.pow_lt_pow_right (by norm_num) (by omega)
          _ ≤ w ^ 8 := hLlo
      · obtain ⟨t, ht⟩ := hod
        have h2n1 : 2 * ((L + 1) / 2) - 1 = L := by omega
        rw [h2n1]
        have hne : w ^ 8 ≠ 2 ^ L := pow8_ne_two_pow_odd (by omega)
        omega
    · -- upper bound of the rounding characterisation
      have he : standardEWidth w + 13 = (L + 1) / 2 := by
        have : 13 ≤ (L + 1) / 2 := by omega
        unfold standardEWidth
        omega
      rw [he]
      have hle : L + 1 ≤ 2 * ((L + 1) / 2) + 1 := by omega
      calc w ^ 8 < 2 ^ (L + 1) := hLhi
        _ ≤ 2 ^ (2 * ((L + 1) / 2) + 1) := Nat.pow_le_pow_right (by norm_num) hle
  · intro w h128 h32 hbig
    rw [FPFormat.standard]
    rw [if_neg (by omega), if_neg (by omega), if_neg (by omega),
      if_neg (by omega), if_pos ⟨h128, h32⟩, if_pos hbig]
  · intro w h16 h32 h64 h128 hother
    rw [FPFormat.standard]
    rw [if_neg h16, if_neg h32, if_neg h64, if_neg h128, if_neg hother]

/-- Witness for C6 at concrete inputs: width 160 (extended, in range),
width 1000064 (beyond the upper limit) and width 12 (unsupported). -/
theorem claim_C6_witness :
    (∃ e : Nat, FPFormat.standard 160 = .ok ⟨e, 160 - 1 - e, false, true⟩
      ∧ 2 ^ (2 * (e + 13) - 1) < 160 ^ 8 ∧ 160 ^ 8 < 2 ^ (2 * (e + 13) + 1))
    ∧ FPFormat.standard 1000064 = .error "width too big"
    ∧ FPFormat.standard 12 =
        .error
          "width must be the bit-width of a valid IEEE 754-2008 binary format" := by
  refine ⟨claim_C6.2.1 160 (by norm_num) (by norm_num) (by norm_num),
    claim_C6.2.2.1 1000064 (by norm_num) (by norm_num) (by norm_num),
    claim_C6.2.2.2 12 (by norm_num) (by norm_num) (by norm_num)
      (by norm_num) (by omega)⟩

/-! ## Field-arithmetic lemmas about `FPFormat` -/

theorem FPFormat.exponent_inf_nan_eq (fmt : FPFormat) :
    fmt.exponent_inf_nan = 2 ^ fmt.e_width - 1 := by
  simp [FPFormat.exponent_inf_nan, Nat.shiftLeft_eq]

theorem FPFormat.mantissa_mask_eq (fmt : FPFormat) :
    fmt.mantissa_mask = 2 ^ fmt.m_width - 1 := by
  simp [FPFormat.mantissa_mask, Nat.shiftLeft_eq]

theorem FPFormat.exponent_mask_eq (fmt : FPFormat) :
    fmt.exponent_mask = (2 ^ fmt.e_width - 1) * 2 ^ fmt.m_width := by
  simp [FPFormat.exponent_mask, FPFormat.exponent_inf_nan_eq, Nat.shiftLeft_eq]

theorem FPFormat.exponent_bias_eq (fmt : FPFormat) :
    fmt.exponent_bias = 2 ^ (fmt.e_width - 1) - 1 := by
  simp [FPFormat.exponent_bias, Nat.shiftLeft_eq]

theorem FPFormat.get_mantissa_field_eq_mod (fmt : FPFormat) (x : Nat) :
    fmt.get_mantissa_field x = x % 2 ^ fmt.m_width := by
  rw [FPFormat.get_mantissa_field, FPFormat.mantissa_mask_eq,
    Nat.and_pow_two_sub_one_eq_mod]

theorem FPFormat.get_exponent_field_eq_mod (fmt : FPFormat) (x : Nat) :
    fmt.get_exponent_field x = x / 2 ^ fmt.m_width % 2 ^ fmt.e_width := by
  rw [FPFormat.get_exponent_field, FPFormat.exponent_inf_nan_eq,
    Nat.and_pow_two_sub_one_eq_mod, Nat.shiftRight_eq_div_pow]

theorem FPFormat.get_sign_field_eq_div (fmt : FPFormat) (x : Nat) :
    fmt.get_sign_field x = x / 2 ^ (fmt.e_width + fmt.m_width) := by
  rw [FPFormat.get_sign_field, Nat.shiftRight_eq_div_pow]
/-! ## Claim C9 -/

theorem lor_top_bit {M k : Nat} (h : M < 2 ^ k * 2) :
    M ||| 2 ^ k = 2 ^ k + M % 2 ^ k := by
  have hpos : 0 < 2 ^ k := Nat.pos_pow_of_pos _ (by norm_num)
  have hr : M % 2 ^ k < 2 ^ k := Nat.mod_lt _ hpos
  by_cases hM : M < 2 ^ k
  · rw [Nat.mod_eq_of_lt hM, lor_two_pow_of_lt hM]
  · have hdm := Nat.div_add_mod M (2 ^ k)
    have hq : M / 2 ^ k = 1 := by
      have hlt : M / 2 ^ k < 2 := Nat.div_lt_of_lt_mul (by omega)
      have hge : 1 ≤ M / 2 ^ k := (Nat.one_le_div_iff hpos).mpr (by omega)
      omega
    rw [hq, Nat.mul_one] at hdm
    have hMeq : M = 2 ^ k ||| M % 2 ^ k := by
      have := two_pow_mul_lor_eq_add k 1 hr
      rw [Nat.mul_one] at this
      omega
    calc M ||| 2 ^ k = 2 ^ k ||| M := Nat.lor_comm _ _
      _ = 2 ^ k ||| (2 ^ k ||| M % 2 ^ k) := by rw [← hMeq]
      _ = (2 ^ k ||| 2 ^ k) ||| M % 2 ^ k := (Nat.lor_assoc _ _ _).symm
      _ = 2 ^ k ||| M % 2 ^ k := by rw [Nat.or_self]
      _ = 2 ^ k + M % 2 ^ k := by
          have := two_pow_mul_lor_eq_add k 1 hr
          rw [Nat.mul_one] at this
          omega

/-- Dividing a quiet-NaN bit pattern by `2^(E+M)` recovers the original sign
bits: the OR-ed in quiet/exponent bits all lie below bit `E+M`. -/
theorem quiet_nan_div_high {x E M : Nat} (hM : 1 ≤ M) :
    (x ||| 2 ^ (M - 1) ||| (2 ^ E - 1) * 2 ^ M) / 2 ^ (E + M)
      = x / 2 ^ (E + M) := by
  have hh : 2 ^ (M - 1) < 2 ^ (E + M) :=
    Nat.pow_lt_pow_right (by norm_num) (by omega)
  have hem : (2 ^ E - 1) * 2 ^ M < 2 ^ (E + M) := by
    rw [pow_add]
    have h1 : (0 : Nat) < 2 ^ M := Nat.pos_pow_of_pos _ (by norm_num)
    have h2 : 2 ^ E - 1 < 2 ^ E := by
      have := Nat.one_le_two_pow (n := E)
      omega
    exact Nat.mul_lt_mul_of_lt_of_le h2 (le_refl _) h1
  have h := lor_shiftRight (x ||| 2 ^ (M - 1)) ((2 ^ E - 1) * 2 ^ M) (E + M)
  have h2 := lor_shiftRight x (2 ^ (M - 1)) (E + M)
  simp only [Nat.shiftRight_eq_div_pow] at h h2
  rw [h, h2, Nat.div_eq_of_lt hh, Nat.div_eq_of_lt hem]
  simp

/-- The exponent field of a quiet-NaN bit pattern is all ones. -/
theorem quiet_nan_exp_field {x E M : Nat} (hM : 1 ≤ M) :
    (x ||| 2 ^ (M - 1) ||| (2 ^ E - 1) * 2 ^ M) / 2 ^ M % 2 ^ E
      = 2 ^ E - 1 := by
  have hh : 2 ^ (M - 1) < 2 ^ M :=
    Nat.pow_lt_pow_right (by norm_num) (by omega)
  have h := lor_shiftRight (x ||| 2 ^ (M - 1)) ((2 ^ E - 1) * 2 ^ M) M
  have h2 := lor_shiftRight x (2 ^ (M - 1)) M
  simp only [Nat.shiftRight_eq_div_pow] at h h2
  rw [h, h2, Nat.div_eq_of_lt hh,
    Nat.mul_div_cancel _ (Nat.pos_pow_of_pos _ (by norm_num : (0:Nat) < 2)),
    Nat.or_zero]
  rw [← Nat.and_pow_two_sub_one_eq_mod, Nat.and_distrib_right,
    Nat.and_pow_two_sub_one_eq_mod, Nat.and_self]
  exact lor_two_pow_sub_one_of_lt
    (Nat.mod_lt _ (Nat.pos_pow_of_pos _ (by norm_num)))

/-- The mantissa field of a quiet-NaN bit pattern: top bit set, payload
below it preserved. -/
theorem quiet_nan_mant_field {x E M : Nat} (hM : 1 ≤ M) :
    (x ||| 2 ^ (M - 1) ||| (2 ^ E - 1) * 2 ^ M) % 2 ^ M
      = 2 ^ (M - 1) + x % 2 ^ M % 2 ^ (M - 1) := by
  have hh : 2 ^ (M - 1) < 2 ^ M :=
    Nat.pow_lt_pow_right (by norm_num) (by omega)
  have hdistr : (x ||| 2 ^ (M - 1) ||| (2 ^ E - 1) * 2 ^ M) % 2 ^ M
      = (x % 2 ^ M) ||| 2 ^ (M - 1) := by
    rw [← Nat.and_pow_two_sub_one_eq_mod, Nat.and_distrib_right,
      Nat.and_distrib_right, Nat.and_pow_two_sub_one_eq_mod,
      Nat.and_pow_two_sub_one_eq_mod, Nat.and_pow_two_sub_one_eq_mod,
      Nat.mod_eq_of_lt hh, Nat.mul_mod_left, Nat.or_zero]
  rw [hdistr]
  apply lor_top_bit
  have h2M : 2 ^ M = 2 ^ (M - 1) * 2 := by
    rw [← pow_succ]
    congr 1
    omega
  have := Nat.mod_lt x (Nat.pos_pow_of_pos M (by norm_num : (0:Nat) < 2))
  omega

/-- C9: for every bit pattern `x`, `to_quiet_nan x` preserves the sign bit,
forces the exponent field to all ones, sets the top mantissa bit while
preserving the lower mantissa (payload) bits, and the result always satisfies
`is_quiet_nan` — even when `x` is not a NaN. -/
theorem claim_C9 (fmt : FPFormat) (x : Nat) (hmw : 1 ≤ fmt.m_width) :
    fmt.get_sign_field (fmt.to_quiet_nan x) = fmt.get_sign_field x
    ∧ fmt.get_exponent_field (fmt.to_quiet_nan x) = 2 ^ fmt.e_width - 1
    ∧ fmt.get_mantissa_field (fmt.to_quiet_nan x)
        = 2 ^ (fmt.m_width - 1)
          + fmt.get_mantissa_field x % 2 ^ (fmt.m_width - 1)
    ∧ fmt.is_quiet_nan (fmt.to_quiet_nan x) = true := by
  have htqn : fmt.to_quiet_nan x
      = x ||| 2 ^ (fmt.m_width - 1) ||| (2 ^ fmt.e_width - 1) * 2 ^ fmt.m_width := by
    rw [FPFormat.to_quiet_nan, FPFormat.exponent_mask_eq, Nat.shiftLeft_eq,
      one_mul]
  have hsign : fmt.get_sign_field (fmt.to_quiet_nan x) = fmt.get_sign_field x := by
    rw [FPFormat.get_sign_field_eq_div, FPFormat.get_sign_field_eq_div, htqn]
    exact quiet_nan_div_high hmw
  have hexp : fmt.get_exponent_field (fmt.to_quiet_nan x)
      = 2 ^ fmt.e_width - 1 := by
    rw [FPFormat.get_exponent_field_eq_mod, htqn]
    exact quiet_nan_exp_field hmw
  have hmant : fmt.get_mantissa_field (fmt.to_quiet_nan x)
      = 2 ^ (fmt.m_width - 1)
        + fmt.get_mantissa_field x % 2 ^ (fmt.m_width - 1) := by
    rw [FPFormat.get_mantissa_field_eq_mod, FPFormat.get_mantissa_field_eq_mod,
      htqn]
    exact quiet_nan_mant_field hmw
  refine ⟨hsign, hexp, hmant, ?_⟩
  rw [FPFormat.is_quiet_nan]
  have h1 : fmt.get_exponent (fmt.to_quiet_nan x) = fmt.e_max := by
    rw [FPFormat.get_exponent, hexp, FPFormat.e_max, FPFormat.exponent_inf_nan_eq]
  have hmpos : (0 : Nat) < 2 ^ (fmt.m_width - 1) :=
    Nat.pos_pow_of_pos _ (by norm_num)
  have h2 : fmt.get_mantissa_field (fmt.to_quiet_nan x) ≠ 0 := by
    rw [hmant]
    omega
  have h3 : fmt.get_mantissa_field (fmt.to_quiet_nan x)
      &&& 1 <<< (fmt.m_width - 1) ≠ 0 := by
    rw [hmant, Nat.shiftLeft_eq, one_mul, Nat.and_two_pow]
    have hr : fmt.get_mantissa_field x % 2 ^ (fmt.m_width - 1)
        < 2 ^ (fmt.m_width - 1) := Nat.mod_lt _ hmpos
    have hbit : (2 ^ (fmt.m_width - 1)
        + fmt.get_mantissa_field x % 2 ^ (fmt.m_width - 1)).testBit
        (fmt.m_width - 1) = true := by
      rw [Nat.testBit_two_pow_add_eq, Nat.testBit_lt_two_pow hr]
      rfl
    rw [hbit]
    simp
  simp [h1, h2, h3]

/-- Witness for C9 at a concrete input: binary16 format, `x = 0x8123`
(a negative subnormal, not a NaN). -/
theorem claim_C9_witness :
    ((1 : Nat) ≤ (10 : Nat)) ∧
    ((⟨5, 10, false, true⟩ : FPFormat).get_sign_field
        ((⟨5, 10, false, true⟩ : FPFormat).to_quiet_nan 0x8123)
      = (⟨5, 10, false, true⟩ : FPFormat).get_sign_field 0x8123)
    ∧ ((⟨5, 10, false, true⟩ : FPFormat).is_quiet_nan
        ((⟨5, 10, false, true⟩ : FPFormat).to_quiet_nan 0x8123) = true) := by
  have h := claim_C9 ⟨5, 10, false, true⟩ 0x8123 (by norm_num)
  exact ⟨by norm_num, h.1, h.2.2.2⟩

/-! ## Decoded operands (`FPNumDecode` / `FPNumBase`, `fpbase.py`)

`FPNumBaseRecord` for width 16/32/64 uses an internal exponent signal two
bits wider than the format's exponent field and an internal mantissa with
three extra low bits, with constants `P128 = 2^(e_width-1)`,
`P127 = 2^(e_width-1) - 1` (the bias) and `N127 = -(2^(e_width-1) - 1)`
expressed here in terms of the format's real exponent width. -/

/-- `FPNumBaseRecord.P128` (the record's `e_max`). -/
def recP128 (fmt : FPFormat) : Int := 2 ^ (fmt.e_width - 1)

/-- `FPNumBaseRecord.P127` (= the exponent bias). -/
def recP127 (fmt : FPFormat) : Int := 2 ^ (fmt.e_width - 1) - 1

/-- `FPNumBaseRecord.N127` (= minus the exponent bias). -/
def recN127 (fmt : FPFormat) : Int := -(2 ^ (fmt.e_width - 1) - 1)

/-- A decoded operand: `s` the top bit of the input, `e` the exponent field
minus the bias (widened, signed), `m` the mantissa field with the 3 extra
guard/round/sticky zero bits appended below. -/
structure FPNumDecoded where
  s : Bool
  e : Int
  m : Nat
  deriving DecidableEq, Repr

/-- `FPNumDecode.decode`. -/
def FPNumDecode (fmt : FPFormat) (v : Nat) : FPNumDecoded :=
  { s := v.testBit (fmt.e_width + fmt.m_width)
    e := ((v >>> fmt.m_width) % 2 ^ fmt.e_width : Nat) - (fmt.exponent_bias : Int)
    m := (v % 2 ^ fmt.m_width) <<< 3 }

/-- `FPNumBase._is_nan`: exponent at `P128` and mantissa nonzero. -/
def FPNumDecoded.is_nan (d : FPNumDecoded) (fmt : FPFormat) : Bool :=
  decide (d.e = recP128 fmt) && decide (d.m ≠ 0)

/-- `FPNumBase._is_inf`: exponent at `P128` and mantissa zero. -/
def FPNumDecoded.is_inf (d : FPNumDecoded) (fmt : FPFormat) : Bool :=
  decide (d.e = recP128 fmt) && decide (d.m = 0)

/-- `FPNumBase._is_zero`: exponent at `N127` and mantissa zero. -/
def FPNumDecoded.is_zero (d : FPNumDecoded) (fmt : FPFormat) : Bool :=
  decide (d.e = recN127 fmt) && decide (d.m = 0)

/-- `FPNumBase.exp_128`: exponent at `P128`. -/
def FPNumDecoded.exp_128 (d : FPNumDecoded) (fmt : FPFormat) : Bool :=
  decide (d.e = recP128 fmt)

/-- `FPNumBaseRecord.create`: assemble a bit pattern from sign, unbiased
exponent and mantissa; the bias is added to the exponent, and the exponent
and mantissa are truncated to their field widths exactly as the hardware
slice assignments do. -/
def recCreate (fmt : FPFormat) (s : Bool) (e : Int) (m : Nat) : Nat :=
  (if s then 1 else 0) * 2 ^ (fmt.e_width + fmt.m_width)
    + ((e + recP127 fmt) % (2 : Int) ^ fmt.e_width).toNat * 2 ^ fmt.m_width
    + m % 2 ^ fmt.m_width

/-- Generic table-lookup reduction: indexing a `make_array` table by a mode's
enum value returns the function at that mode. -/
theorem make_array_getD {α : Type} (f : FPRoundingMode → α) (rm : FPRoundingMode)
    (d : α) : (FPRoundingMode.make_array f).getD rm.value d = f rm := by
  cases rm <;> rfl

/-- Splitting a bit pattern into sign / exponent / mantissa fields. -/
theorem field_decomp (e m y : Nat) :
    y = y / 2 ^ (e + m) * 2 ^ (e + m) + y / 2 ^ m % 2 ^ e * 2 ^ m + y % 2 ^ m := by
  have h3 : y / 2 ^ m / 2 ^ e = y / 2 ^ (e + m) := by
    rw [Nat.div_div_eq_div_mul, ← pow_add, Nat.add_comm]
  have h1 := Nat.div_add_mod y (2 ^ m)
  have h2 := Nat.div_add_mod (y / 2 ^ m) (2 ^ e)
  rw [h3] at h2
  have hpw : 2 ^ (e + m) = 2 ^ e * 2 ^ m := pow_add 2 e m
  calc y = 2 ^ m * (y / 2 ^ m) + y % 2 ^ m := h1.symm
    _ = 2 ^ m * (2 ^ e * (y / 2 ^ (e + m)) + y / 2 ^ m % 2 ^ e) + y % 2 ^ m := by
        rw [h2]
    _ = y / 2 ^ (e + m) * 2 ^ (e + m) + y / 2 ^ m % 2 ^ e * 2 ^ m + y % 2 ^ m := by
        rw [hpw]
        ring

/-- A bit pattern of the format's width has sign field 0 or 1. -/
theorem sign_field_le_one {e m v : Nat} (h : v < 2 ^ (1 + e + m)) :
    v / 2 ^ (e + m) ≤ 1 := by
  have h2 : 2 ^ (1 + e + m) = 2 ^ (e + m) * 2 := by ring
  have := Nat.div_lt_of_lt_mul (h2 ▸ h)
  omega

/-- For in-range patterns the decoded sign bit is the sign field. -/
theorem testBit_top_eq {e m v : Nat} (h : v < 2 ^ (1 + e + m)) :
    v.testBit (e + m) = decide (v / 2 ^ (e + m) = 1) := by
  have hle := sign_field_le_one h
  rw [Nat.testBit_to_div_mod]
  rcases Nat.le_one_iff_eq_zero_or_eq_one.mp hle with h0 | h1
  · rw [h0]
  · rw [h1]

/-! ## The packing stage (`pack.py`, `FPPackMod`) -/

/-- `FPPackMod.elaborate`: when the special-cases bypass `out_do_z` is set,
output the bypass pattern `oz` unchanged; otherwise detect overflow
(`is_overflowed`: exponent greater than `P127`) and emit infinity or
max-normal per the mode's overflow policy (looked up in a `make_array`
table), else pack `sign|exponent+bias|mantissa` directly via `create`. -/
def FPPackMod (fmt : FPFormat) (i : FPRoundData) : Nat :=
  let ovf_to_inf : Bool :=
    (FPRoundingMode.make_array fun rm =>
      rm.overflow_rounds_to_inf i.z.s).getD i.rm.value false
  if !i.out_do_z then
    if recP127 fmt < i.z.e then
      if ovf_to_inf then recCreate fmt i.z.s (recP128 fmt) 0
      else recCreate fmt i.z.s (recP127 fmt) (2 ^ fmt.m_width - 1)
    else recCreate fmt i.z.s i.z.e i.z.m
  else i.oz

/-! ## Arithmetic values of the `create`-based constructors -/

theorem recP127_cast (fmt : FPFormat) :
    recP127 fmt = (fmt.exponent_bias : Int) := by
  rw [recP127, FPFormat.exponent_bias_eq]
  have h : (1 : Nat) ≤ 2 ^ (fmt.e_width - 1) := Nat.one_le_two_pow
  push_cast [h]
  ring

theorem int_two_pow_cast (k : Nat) : ((2 : Int) ^ k) = ((2 ^ k : Nat) : Int) := by
  push_cast
  ring

/-- `create(s, P128, m)`: all-ones exponent field. -/
theorem recCreate_P128 (fmt : FPFormat) (s : Bool) (m : Nat)
    (hew : 1 ≤ fmt.e_width) :
    recCreate fmt s (recP128 fmt) m
      = (if s then 1 else 0) * 2 ^ (fmt.e_width + fmt.m_width)
        + (2 ^ fmt.e_width - 1) * 2 ^ fmt.m_width + m % 2 ^ fmt.m_width := by
  rw [recCreate]
  have hsum : recP128 fmt + recP127 fmt = (2 : Int) ^ fmt.e_width - 1 := by
    rw [recP128, recP127]
    obtain ⟨t, ht⟩ : ∃ t, fmt.e_width = t + 1 := ⟨fmt.e_width - 1, by omega⟩
    rw [ht]
    simp only [Nat.add_sub_cancel]
    rw [pow_succ]
    ring
  rw [hsum]
  have h1 : (0 : Int) < 2 ^ fmt.e_width := pow_pos (by norm_num) _
  have hmod : ((2 : Int) ^ fmt.e_width - 1) % 2 ^ fmt.e_width
      = (2 : Int) ^ fmt.e_width - 1 :=
    Int.emod_eq_of_lt (by omega) (by omega)
  rw [hmod]
  have h1n : (1 : Nat) ≤ 2 ^ fmt.e_width := Nat.one_le_two_pow
  have htn : ((2 : Int) ^ fmt.e_width - 1).toNat = 2 ^ fmt.e_width - 1 := by
    rw [int_two_pow_cast]
    omega
  rw [htn]

/-- `create(s, N127, 0)` is `zero(s)`. -/
theorem recCreate_N127_zero (fmt : FPFormat) (s : Bool) :
    recCreate fmt s (recN127 fmt) 0 = fmt.zero s := by
  rw [recCreate, recN127, recP127, FPFormat.zero, Nat.shiftLeft_eq]
  have hsum : -((2 : Int) ^ (fmt.e_width - 1) - 1) + (2 ^ (fmt.e_width - 1) - 1)
      = 0 := by ring
  rw [hsum]
  simp

theorem mul_two_pow_lor_eq_add {b : Nat} (k a : Nat) (h : b < 2 ^ k) :
    (a * 2 ^ k) ||| b = a * 2 ^ k + b := by
  rw [Nat.mul_comm a (2 ^ k)]
  exact (Nat.mul_add_lt_is_or h a).symm

/-- The exponent mask fits under the sign bit. -/
theorem exponent_mask_lt (fmt : FPFormat) :
    (2 ^ fmt.e_width - 1) * 2 ^ fmt.m_width
      < 2 ^ (fmt.e_width + fmt.m_width) := by
  rw [pow_add]
  have h1 : (0 : Nat) < 2 ^ fmt.m_width := Nat.pos_pow_of_pos _ (by norm_num)
  have h2 : 2 ^ fmt.e_width - 1 < 2 ^ fmt.e_width := by
    have := Nat.one_le_two_pow (n := fmt.e_width)
    omega
  exact Nat.mul_lt_mul_of_lt_of_le h2 (le_refl _) h1

/-- `create(s, P128, 0)` is `inf(s)`. -/
theorem recCreate_P128_inf (fmt : FPFormat) (s : Bool) (hew : 1 ≤ fmt.e_width) :
    recCreate fmt s (recP128 fmt) 0 = fmt.inf s := by
  rw [recCreate_P128 fmt s 0 hew, FPFormat.inf, FPFormat.zero,
    FPFormat.exponent_mask_eq, Nat.shiftLeft_eq]
  rw [mul_two_pow_lor_eq_add _ _ (exponent_mask_lt fmt)]
  simp

/-! ## Claim C5 -/

/-- C5: with the bypass flag clear, Pack emits ±infinity when the exponent
exceeds the representable maximum and the mode's overflow policy rounds to
infinity, max-normal with the same sign otherwise; for an in-range exponent
it emits the direct encoding `sign | exponent + bias | mantissa`.  With the
bypass flag set it outputs the precomputed bypass pattern `oz` unchanged,
ignoring the compute path. -/
theorem claim_C5 (fmt : FPFormat) (i : FPRoundData)
    (hew : 1 ≤ fmt.e_width) (hm : i.z.m < 2 ^ fmt.m_width) :
    (i.out_do_z = true → FPPackMod fmt i = i.oz)
    ∧ (i.out_do_z = false → (fmt.exponent_bias : Int) < i.z.e →
        (i.rm.overflow_rounds_to_inf i.z.s = true →
          FPPackMod fmt i = fmt.inf i.z.s)
        ∧ (i.rm.overflow_rounds_to_inf i.z.s = false →
          FPPackMod fmt i
            = (if i.z.s then 1 else 0) * 2 ^ (fmt.e_width + fmt.m_width)
              + (2 ^ fmt.e_width - 2) * 2 ^ fmt.m_width
              + (2 ^ fmt.m_width - 1)))
    ∧ (i.out_do_z = false → -(fmt.exponent_bias : Int) ≤ i.z.e →
        i.z.e ≤ (fmt.exponent_bias : Int) →
        FPPackMod fmt i
          = (if i.z.s then 1 else 0) * 2 ^ (fmt.e_width + fmt.m_width)
            + (i.z.e + (fmt.exponent_bias : Int)).toNat * 2 ^ fmt.m_width
            + i.z.m) := by
  have harr : (FPRoundingMode.make_array fun rm =>
      rm.overflow_rounds_to_inf i.z.s).getD i.rm.value false
      = i.rm.overflow_rounds_to_inf i.z.s := make_array_getD _ _ _
  have hbias := recP127_cast fmt
  refine ⟨?_, ?_, ?_⟩
  · intro hz
    simp [FPPackMod, hz]
  · intro hz hovf
    have hgt : recP127 fmt < i.z.e := by rw [hbias]; exact hovf
    constructor
    · intro hinf
      rw [FPPackMod]
      simp only [harr, hz, hgt, hinf, Bool.not_false, if_pos, if_true]
      exact recCreate_P128_inf fmt i.z.s hew
    · intro hmax
      rw [FPPackMod]
      simp only [harr, hz, hgt, hmax, Bool.not_false, if_pos, if_true,
        Bool.false_eq_true, if_false]
      rw [recCreate]
      have hsum : recP127 fmt + recP127 fmt = (2 : Int) ^ fmt.e_width - 2 := by
        rw [recP127]
        obtain ⟨t, ht⟩ : ∃ t, fmt.e_width = t + 1 := ⟨fmt.e_width - 1, by omega⟩
        rw [ht]
        simp only [Nat.add_sub_cancel]
        rw [pow_succ]
        ring
      rw [hsum]
      have h2 : (2 : Int) ≤ 2 ^ fmt.e_width := by
        calc (2 : Int) = 2 ^ 1 := (pow_one 2).symm
          _ ≤ 2 ^ fmt.e_width := pow_le_pow_right₀ (by norm_num) hew
      have hmod : ((2 : Int) ^ fmt.e_width - 2) % 2 ^ fmt.e_width
          = (2 : Int) ^ fmt.e_width - 2 :=
        Int.emod_eq_of_lt (by omega) (by omega)
      rw [hmod]
      have hmlt : 2 ^ fmt.m_width - 1 < 2 ^ fmt.m_width := by
        have := Nat.one_le_two_pow (n := fmt.m_width)
        omega
      rw [Nat.mod_eq_of_lt hmlt]
      rw [int_two_pow_cast] at h2
      have htn : ((2 : Int) ^ fmt.e_width - 2).toNat = 2 ^ fmt.e_width - 2 := by
        rw [int_two_pow_cast]
        omega
      rw [htn]
  · intro hz hlo hhi
    have hngt : ¬(recP127 fmt < i.z.e) := by rw [hbias]; omega
    rw [FPPackMod]
    simp only [harr, hz, hngt, Bool.not_false, if_true, if_false]
    rw [recCreate, hbias]
    have hpos : (0 : Int) ≤ i.z.e + (fmt.exponent_bias : Int) := by omega
    have hlt : i.z.e + (fmt.exponent_bias : Int) < (2 : Int) ^ fmt.e_width := by
      have hbe : ((fmt.exponent_bias : Int)) = 2 ^ (fmt.e_width - 1) - 1 := by
        rw [← recP127_cast, recP127]
      have hpow : (2 : Int) ^ fmt.e_width = 2 ^ (fmt.e_width - 1) * 2 := by
        conv =>
          lhs
          rw [show fmt.e_width = fmt.e_width - 1 + 1 by omega]
        rw [pow_succ]
      omega
    rw [Int.emod_eq_of_lt hpos hlt, Nat.mod_eq_of_lt hm]

/-- Witness for C5 at a concrete input: binary16 record with overflowed
exponent (16 > 15) in mode RTZ (overflow goes to max-normal), and a second
in-range packing. -/
theorem claim_C5_witness :
    ((1 : Nat) ≤ 5)
    ∧ ((1022 : Nat) < 2 ^ 10)
    ∧ FPPackMod ⟨5, 10, false, true⟩ ⟨⟨false, 16, 1022⟩, false, 0, .RTZ⟩
        = 0 * 2 ^ (5 + 10) + (2 ^ 5 - 2) * 2 ^ 10 + (2 ^ 10 - 1)
    ∧ FPPackMod ⟨5, 10, false, true⟩ ⟨⟨true, 2, 37⟩, false, 0, .RTZ⟩
        = 1 * 2 ^ (5 + 10) + ((2 : Int) + 15).toNat * 2 ^ 10 + 37 := by
  refine ⟨by norm_num, by norm_num, ?_, ?_⟩
  · have h := claim_C5 ⟨5, 10, false, true⟩ ⟨⟨false, 16, 1022⟩, false, 0, .RTZ⟩
      (by decide) (by decide)
    exact (h.2.1 rfl (by decide)).2 (by decide)
  · have h := claim_C5 ⟨5, 10, false, true⟩ ⟨⟨true, 2, 37⟩, false, 0, .RTZ⟩
      (by decide) (by decide)
    exact h.2.2 rfl (by decide) (by decide)

/-! ## Bridges between decoded-record predicates and `FPFormat` predicates -/

theorem decode_e_eq (fmt : FPFormat) (v : Nat) :
    (FPNumDecode fmt v).e = fmt.get_exponent v := by
  rw [FPNumDecode, FPFormat.get_exponent, FPFormat.get_exponent_field_eq_mod,
    Nat.shiftRight_eq_div_pow]

theorem decode_m_eq (fmt : FPFormat) (v : Nat) :
    (FPNumDecode fmt v).m = fmt.get_mantissa_field v * 8 := by
  rw [FPNumDecode, FPFormat.get_mantissa_field_eq_mod, Nat.shiftLeft_eq]

theorem gsf_le_one (fmt : FPFormat) {v : Nat}
    (hv : v < 2 ^ (1 + fmt.e_width + fmt.m_width)) :
    fmt.get_sign_field v ≤ 1 := by
  rw [FPFormat.get_sign_field_eq_div]
  exact sign_field_le_one hv

theorem decode_s_eq (fmt : FPFormat) {v : Nat}
    (hv : v < 2 ^ (1 + fmt.e_width + fmt.m_width)) :
    (FPNumDecode fmt v).s = decide (fmt.get_sign_field v = 1) := by
  rw [FPNumDecode, FPFormat.get_sign_field_eq_div]
  exact testBit_top_eq hv

theorem decode_s_toNat (fmt : FPFormat) {v : Nat}
    (hv : v < 2 ^ (1 + fmt.e_width + fmt.m_width)) :
    (if (FPNumDecode fmt v).s then 1 else 0 : Nat)
      = v / 2 ^ (fmt.e_width + fmt.m_width) := by
  rw [decode_s_eq fmt hv, FPFormat.get_sign_field_eq_div]
  have hle : v / 2 ^ (fmt.e_width + fmt.m_width) ≤ 1 := sign_field_le_one hv
  rcases Nat.le_one_iff_eq_zero_or_eq_one.mp hle with h0 | h1
  · rw [h0]
    simp
  · rw [h1]
    simp

theorem recP128_eq_e_max (fmt : FPFormat) (hew : 1 ≤ fmt.e_width) :
    recP128 fmt = fmt.e_max := by
  rw [recP128, FPFormat.e_max, FPFormat.exponent_inf_nan_eq,
    FPFormat.exponent_bias_eq]
  obtain ⟨t, ht⟩ : ∃ t, fmt.e_width = t + 1 := ⟨fmt.e_width - 1, by omega⟩
  rw [ht]
  simp only [Nat.add_sub_cancel]
  have h1 : (1 : Nat) ≤ 2 ^ (t + 1) := Nat.one_le_two_pow
  have h2 : (1 : Nat) ≤ 2 ^ t := Nat.one_le_two_pow
  rw [Nat.cast_sub h1, Nat.cast_sub h2]
  push_cast
  rw [pow_succ]
  ring

theorem recN127_eq_e_sub (fmt : FPFormat) : recN127 fmt = fmt.e_sub := by
  rw [recN127, FPFormat.e_sub, FPFormat.exponent_denormal_zero,
    FPFormat.exponent_bias_eq]
  have h2 : (1 : Nat) ≤ 2 ^ (fmt.e_width - 1) := Nat.one_le_two_pow
  rw [Nat.cast_sub h2]
  push_cast
  ring

theorem decode_is_nan (fmt : FPFormat) (v : Nat) (hew : 1 ≤ fmt.e_width) :
    (FPNumDecode fmt v).is_nan fmt = fmt.is_nan v := by
  rw [FPNumDecoded.is_nan, FPFormat.is_nan, decode_e_eq,
    recP128_eq_e_max fmt hew, decode_m_eq]
  congr 1
  simp

theorem decode_is_inf (fmt : FPFormat) (v : Nat) (hew : 1 ≤ fmt.e_width) :
    (FPNumDecode fmt v).is_inf fmt = fmt.is_inf v := by
  rw [FPNumDecoded.is_inf, FPFormat.is_inf, decode_e_eq,
    recP128_eq_e_max fmt hew, decode_m_eq]
  congr 1
  simp

theorem decode_is_zero (fmt : FPFormat) (v : Nat) :
    (FPNumDecode fmt v).is_zero fmt = fmt.is_zero v := by
  rw [FPNumDecoded.is_zero, FPFormat.is_zero, decode_e_eq,
    recN127_eq_e_sub fmt, decode_m_eq]
  congr 1
  simp

theorem decode_exp128_eq (fmt : FPFormat) (v : Nat) (hew : 1 ≤ fmt.e_width) :
    (FPNumDecode fmt v).exp_128 fmt = decide (fmt.get_exponent v = fmt.e_max) := by
  rw [FPNumDecoded.exp_128, decode_e_eq, recP128_eq_e_max fmt hew]

/-- Under "not a NaN", an all-ones exponent means infinity. -/
theorem exp128_of_not_nan (fmt : FPFormat) (v : Nat) (hew : 1 ≤ fmt.e_width)
    (hn : fmt.is_nan v = false) :
    (FPNumDecode fmt v).exp_128 fmt = fmt.is_inf v := by
  rw [decode_exp128_eq fmt v hew, FPFormat.is_inf]
  rw [FPFormat.is_nan] at hn
  by_cases he : fmt.get_exponent v = fmt.e_max
  · simp [he] at hn ⊢
    exact hn
  · simp [he]

/-! ## Field characterisations of the classification predicates -/

theorem is_zero_iff_fields (fmt : FPFormat) (v : Nat) :
    fmt.is_zero v = true
      ↔ (fmt.get_exponent_field v = 0 ∧ fmt.get_mantissa_field v = 0) := by
  rw [FPFormat.is_zero, FPFormat.get_exponent, FPFormat.e_sub,
    FPFormat.exponent_denormal_zero]
  simp only [Bool.and_eq_true, decide_eq_true_eq]
  constructor
  · rintro ⟨he, hm⟩
    refine ⟨?_, hm⟩
    omega
  · rintro ⟨he, hm⟩
    refine ⟨?_, hm⟩
    omega

theorem is_nan_iff_fields (fmt : FPFormat) (v : Nat) :
    fmt.is_nan v = true
      ↔ (fmt.get_exponent_field v = 2 ^ fmt.e_width - 1
          ∧ fmt.get_mantissa_field v ≠ 0) := by
  rw [FPFormat.is_nan, FPFormat.get_exponent, FPFormat.e_max,
    FPFormat.exponent_inf_nan_eq]
  simp only [Bool.and_eq_true, decide_eq_true_eq]
  constructor
  · rintro ⟨he, hm⟩
    refine ⟨?_, hm⟩
    omega
  · rintro ⟨he, hm⟩
    refine ⟨?_, hm⟩
    omega

theorem is_inf_iff_fields (fmt : FPFormat) (v : Nat) :
    fmt.is_inf v = true
      ↔ (fmt.get_exponent_field v = 2 ^ fmt.e_width - 1
          ∧ fmt.get_mantissa_field v = 0) := by
  rw [FPFormat.is_inf, FPFormat.get_exponent, FPFormat.e_max,
    FPFormat.exponent_inf_nan_eq]
  simp only [Bool.and_eq_true, decide_eq_true_eq]
  constructor
  · rintro ⟨he, hm⟩
    refine ⟨?_, hm⟩
    omega
  · rintro ⟨he, hm⟩
    refine ⟨?_, hm⟩
    omega

/-- A zero is neither a NaN nor an infinity (exponent width at least 1). -/
theorem zero_not_nan_inf (fmt : FPFormat) (v : Nat) (hew : 1 ≤ fmt.e_width)
    (hz : fmt.is_zero v = true) :
    fmt.is_nan v = false ∧ fmt.is_inf v = false := by
  obtain ⟨he, hm⟩ := (is_zero_iff_fields fmt v).mp hz
  have hpow : 2 ≤ 2 ^ fmt.e_width := by
    calc (2 : Nat) = 2 ^ 1 := (pow_one 2).symm
      _ ≤ 2 ^ fmt.e_width := Nat.pow_le_pow_right (by norm_num) hew
  constructor
  · rw [← Bool.not_eq_true]
    intro hc
    obtain ⟨he2, _⟩ := (is_nan_iff_fields fmt v).mp hc
    omega
  · rw [← Bool.not_eq_true]
    intro hc
    obtain ⟨he2, _⟩ := (is_inf_iff_fields fmt v).mp hc
    omega

/-! ## Values of the `create`-based special-case constructors -/

theorem to_quiet_nan_lor (fmt : FPFormat) (v : Nat) :
    fmt.to_quiet_nan v
      = v ||| 2 ^ (fmt.m_width - 1) ||| (2 ^ fmt.e_width - 1) * 2 ^ fmt.m_width := by
  rw [FPFormat.to_quiet_nan, FPFormat.exponent_mask_eq, Nat.shiftLeft_eq, one_mul]

/-- Normal form of a quiet-NaN pattern as a sum of disjoint fields. -/
theorem tqn_normal_form {ew mw : Nat} (hmw : 1 ≤ mw) (v : Nat) :
    v ||| 2 ^ (mw - 1) ||| (2 ^ ew - 1) * 2 ^ mw
      = v / 2 ^ (ew + mw) * 2 ^ (ew + mw) + (2 ^ ew - 1) * 2 ^ mw
        + ((v % 2 ^ mw) ||| 2 ^ (mw - 1)) := by
  have h2M : 2 ^ mw = 2 ^ (mw - 1) * 2 := by
    conv =>
      lhs
      rw [show mw = mw - 1 + 1 by omega]
    rw [pow_succ]
  have hvm : v % 2 ^ mw < 2 ^ mw := Nat.mod_lt _ (Nat.pos_pow_of_pos _ (by norm_num))
  have htop := lor_top_bit (M := v % 2 ^ mw) (k := mw - 1) (by omega)
  have hd := field_decomp ew mw (v ||| 2 ^ (mw - 1) ||| (2 ^ ew - 1) * 2 ^ mw)
  rw [quiet_nan_div_high hmw, quiet_nan_exp_field hmw, quiet_nan_mant_field hmw]
    at hd
  rw [hd, htop]

/-- `create(a.s, P128, a.mantissa | highbit)` equals `to_quiet_nan a`. -/
theorem recCreate_quieted (fmt : FPFormat) {v : Nat}
    (hew : 1 ≤ fmt.e_width) (hmw : 1 ≤ fmt.m_width)
    (hv : v < 2 ^ (1 + fmt.e_width + fmt.m_width)) :
    recCreate fmt (FPNumDecode fmt v).s (recP128 fmt)
        ((v % 2 ^ fmt.m_width) ||| 2 ^ (fmt.m_width - 1))
      = fmt.to_quiet_nan v := by
  rw [recCreate_P128 fmt _ _ hew, to_quiet_nan_lor, tqn_normal_form hmw]
  have hlt : (v % 2 ^ fmt.m_width) ||| 2 ^ (fmt.m_width - 1) < 2 ^ fmt.m_width := by
    apply Nat.or_lt_two_pow
    · exact Nat.mod_lt _ (Nat.pos_pow_of_pos _ (by norm_num))
    · exact Nat.pow_lt_pow_right (by norm_num) (by omega)
  rw [Nat.mod_eq_of_lt hlt, decode_s_toNat fmt hv]

/-- `nan(0)` (`create(0, P128, msb)`) equals the default quiet NaN. -/
theorem recCreate_default_nan (fmt : FPFormat)
    (hew : 1 ≤ fmt.e_width) (hmw : 1 ≤ fmt.m_width) :
    recCreate fmt false (recP128 fmt) (2 ^ (fmt.m_width - 1))
      = fmt.quiet_nan false := by
  rw [FPFormat.quiet_nan, FPFormat.zero, Nat.shiftLeft_eq, recCreate_P128 fmt _ _ hew]
  simp only [if_false, Bool.false_eq_true, Nat.zero_mul, Nat.zero_add]
  rw [to_quiet_nan_lor, tqn_normal_form hmw]
  have hh : 2 ^ (fmt.m_width - 1) < 2 ^ fmt.m_width :=
    Nat.pow_lt_pow_right (by norm_num) (by omega)
  simp [Nat.mod_eq_of_lt hh]

/-- `create(a.s, P128, 0)` equals `inf` at the operand's sign bit. -/
theorem recCreate_inf_decoded (fmt : FPFormat) {v : Nat}
    (hew : 1 ≤ fmt.e_width)
    (hv : v < 2 ^ (1 + fmt.e_width + fmt.m_width)) :
    recCreate fmt (FPNumDecode fmt v).s (recP128 fmt) 0
      = fmt.inf (decide (fmt.get_sign_field v = 1)) := by
  rw [decode_s_eq fmt hv]
  exact recCreate_P128_inf fmt _ hew

/-! ## Zero bit patterns -/

theorem zero_eq_mul (fmt : FPFormat) (s : Bool) :
    fmt.zero s = (if s then 1 else 0) * 2 ^ (fmt.e_width + fmt.m_width) := by
  rw [FPFormat.zero, Nat.shiftLeft_eq]

theorem zero_lt_width (fmt : FPFormat) (s : Bool) :
    fmt.zero s < 2 ^ (1 + fmt.e_width + fmt.m_width) := by
  rw [zero_eq_mul]
  have h : 2 ^ (1 + fmt.e_width + fmt.m_width)
      = 2 ^ (fmt.e_width + fmt.m_width) * 2 := by ring
  have hp : (0 : Nat) < 2 ^ (fmt.e_width + fmt.m_width) :=
    Nat.pos_pow_of_pos _ (by norm_num)
  cases s
  · simp
  · simp
    omega

theorem gsf_zero (fmt : FPFormat) (s : Bool) :
    fmt.get_sign_field (fmt.zero s) = if s then 1 else 0 := by
  rw [FPFormat.get_sign_field_eq_div, zero_eq_mul]
  exact Nat.mul_div_cancel _ (Nat.pos_pow_of_pos _ (by norm_num))

theorem ef_zero (fmt : FPFormat) (s : Bool) :
    fmt.get_exponent_field (fmt.zero s) = 0 := by
  rw [FPFormat.get_exponent_field_eq_mod, zero_eq_mul]
  have h : (if s then 1 else 0) * 2 ^ (fmt.e_width + fmt.m_width) / 2 ^ fmt.m_width
      = (if s then 1 else 0) * 2 ^ fmt.e_width := by
    rw [pow_add, ← Nat.mul_assoc]
    exact Nat.mul_div_cancel _ (Nat.pos_pow_of_pos _ (by norm_num))
  rw [h]
  cases s <;> simp

theorem mf_zero (fmt : FPFormat) (s : Bool) :
    fmt.get_mantissa_field (fmt.zero s) = 0 := by
  rw [FPFormat.get_mantissa_field_eq_mod, zero_eq_mul, pow_add, ← Nat.mul_assoc]
  exact Nat.mul_mod_left _ _

theorem is_zero_zero (fmt : FPFormat) (s : Bool) :
    fmt.is_zero (fmt.zero s) = true :=
  (is_zero_iff_fields fmt _).mpr ⟨ef_zero fmt s, mf_zero fmt s⟩

/-! ## The addition special-cases stage (`fpadd/specialcases.py`) -/

/-- Output record of the special-cases stage (`FPSCData`): the decoded
operands forwarded to align/compute, the bypass decision `out_do_z`, the
bypass pattern `oz` and the rounding mode. -/
structure FPSCData where
  a : FPNumDecoded
  b : FPNumDecoded
  out_do_z : Bool
  oz : Nat
  rm : FPRoundingMode

/-- `FPAddSpecialCasesMod.elaborate`: decode both operands, classify, and
compute the bypass decision and and bypass value through the reverse-order
`Mux` chain of the source (highest priority outermost). -/
def FPAddSpecialCasesMod (fmt : FPFormat) (rm : FPRoundingMode)
    (av bv : Nat) : FPSCData :=
  let a1 := FPNumDecode fmt av
  let b1 := FPNumDecode fmt bv
  let s_nomatch : Bool := decide (a1.s ≠ b1.s)
  let s_match : Bool := decide (a1.s = b1.s)
  let m_match : Bool := decide (a1.m = b1.m)
  let e_match : Bool := decide (a1.e = b1.e)
  let t_abnan : Bool := a1.is_nan fmt || b1.is_nan fmt
  let t_a1inf : Bool := a1.is_inf fmt
  let t_b1inf : Bool := b1.is_inf fmt
  let t_abz : Bool := a1.is_zero fmt && b1.is_zero fmt
  let t_a1zero : Bool := a1.is_zero fmt
  let t_b1zero : Bool := b1.is_zero fmt
  let t_aeqmb : Bool := s_nomatch && m_match && e_match
  let t_special : Bool :=
    t_aeqmb || t_b1zero || t_a1zero || t_abz || t_b1inf || t_a1inf || t_abnan
  let bexp128s : Bool := b1.exp_128 fmt && s_nomatch
  let zero_sign_rm : Bool :=
    (FPRoundingMode.make_array FPRoundingMode.zero_sign).getD rm.value false
  let z_default_zero := recCreate fmt zero_sign_rm (recN127 fmt) 0
  let z_default_nan := recCreate fmt false (recP128 fmt) (2 ^ (fmt.m_width - 1))
  let z_quieted_a := recCreate fmt a1.s (recP128 fmt)
    ((av % 2 ^ fmt.m_width) ||| 2 ^ (fmt.m_width - 1))
  let z_quieted_b := recCreate fmt b1.s (recP128 fmt)
    ((bv % 2 ^ fmt.m_width) ||| 2 ^ (fmt.m_width - 1))
  let z_infa := recCreate fmt a1.s (recP128 fmt) 0
  let z_infb := recCreate fmt b1.s (recP128 fmt) 0
  let oz1 := if t_b1zero then av else 0
  let oz2 := if t_a1zero then bv else oz1
  let oz3 := if t_aeqmb then z_default_zero else oz2
  let oz4 := if t_abz && s_match then av else oz3
  let oz5 := if t_b1inf then z_infb else oz4
  let oz6 := if t_a1inf then (if bexp128s then z_default_nan else z_infa) else oz5
  let oz7 := if t_abnan then (if a1.is_nan fmt then z_quieted_a else z_quieted_b)
    else oz6
  { a := a1, b := b1, out_do_z := t_special, oz := oz7, rm := rm }

/-! ## Case behaviour of the special-cases chain -/

theorem addsc_nan_a (fmt : FPFormat) (rm : FPRoundingMode) (av bv : Nat)
    (hew : 1 ≤ fmt.e_width) (hmw : 1 ≤ fmt.m_width)
    (ha : av < 2 ^ (1 + fmt.e_width + fmt.m_width))
    (hna : fmt.is_nan av = true) :
    (FPAddSpecialCasesMod fmt rm av bv).out_do_z = true
      ∧ (FPAddSpecialCasesMod fmt rm av bv).oz = fmt.to_quiet_nan av := by
  have h1 : (FPNumDecode fmt av).is_nan fmt = true := by
    rw [decode_is_nan fmt av hew]
    exact hna
  have hq := recCreate_quieted fmt hew hmw ha
  constructor
  · simp [FPAddSpecialCasesMod, h1]
  · simp [FPAddSpecialCasesMod, h1, hq]

theorem addsc_nan_b (fmt : FPFormat) (rm : FPRoundingMode) (av bv : Nat)
    (hew : 1 ≤ fmt.e_width) (hmw : 1 ≤ fmt.m_width)
    (hb : bv < 2 ^ (1 + fmt.e_width + fmt.m_width))
    (hna : fmt.is_nan av = false) (hnb : fmt.is_nan bv = true) :
    (FPAddSpecialCasesMod fmt rm av bv).out_do_z = true
      ∧ (FPAddSpecialCasesMod fmt rm av bv).oz = fmt.to_quiet_nan bv := by
  have h1 : (FPNumDecode fmt av).is_nan fmt = false := by
    rw [decode_is_nan fmt av hew]
    exact hna
  have h2 : (FPNumDecode fmt bv).is_nan fmt = true := by
    rw [decode_is_nan fmt bv hew]
    exact hnb
  have hq := recCreate_quieted fmt hew hmw hb
  constructor
  · simp [FPAddSpecialCasesMod, h1, h2]
  · simp [FPAddSpecialCasesMod, h1, h2, hq]

theorem decode_s_eq_iff (fmt : FPFormat) {av bv : Nat}
    (ha : av < 2 ^ (1 + fmt.e_width + fmt.m_width))
    (hb : bv < 2 ^ (1 + fmt.e_width + fmt.m_width)) :
    ((FPNumDecode fmt av).s = (FPNumDecode fmt bv).s)
      ↔ (fmt.get_sign_field av = fmt.get_sign_field bv) := by
  rw [decode_s_eq fmt ha, decode_s_eq fmt hb]
  have h1 := gsf_le_one fmt ha
  have h2 := gsf_le_one fmt hb
  rcases Nat.le_one_iff_eq_zero_or_eq_one.mp h1 with hA | hA <;>
    rcases Nat.le_one_iff_eq_zero_or_eq_one.mp h2 with hB | hB <;>
    simp [hA, hB]

theorem decode_e_eq_iff (fmt : FPFormat) (av bv : Nat) :
    ((FPNumDecode fmt av).e = (FPNumDecode fmt bv).e)
      ↔ (fmt.get_exponent_field av = fmt.get_exponent_field bv) := by
  rw [decode_e_eq, decode_e_eq, FPFormat.get_exponent, FPFormat.get_exponent]
  omega

theorem decode_m_eq_iff (fmt : FPFormat) (av bv : Nat) :
    ((FPNumDecode fmt av).m = (FPNumDecode fmt bv).m)
      ↔ (fmt.get_mantissa_field av = fmt.get_mantissa_field bv) := by
  rw [decode_m_eq, decode_m_eq]
  omega

theorem addsc_inf_inf_nan (fmt : FPFormat) (rm : FPRoundingMode) (av bv : Nat)
    (hew : 1 ≤ fmt.e_width) (hmw : 1 ≤ fmt.m_width)
    (ha : av < 2 ^ (1 + fmt.e_width + fmt.m_width))
    (hb : bv < 2 ^ (1 + fmt.e_width + fmt.m_width))
    (hna : fmt.is_nan av = false) (hnb : fmt.is_nan bv = false)
    (hia : fmt.is_inf av = true) (hib : fmt.is_inf bv = true)
    (hsne : fmt.get_sign_field av ≠ fmt.get_sign_field bv) :
    (FPAddSpecialCasesMod fmt rm av bv).out_do_z = true
      ∧ (FPAddSpecialCasesMod fmt rm av bv).oz = fmt.quiet_nan false := by
  have h1 : (FPNumDecode fmt av).is_nan fmt = false := by
    rw [decode_is_nan fmt av hew]; exact hna
  have h2 : (FPNumDecode fmt bv).is_nan fmt = false := by
    rw [decode_is_nan fmt bv hew]; exact hnb
  have h3 : (FPNumDecode fmt av).is_inf fmt = true := by
    rw [decode_is_inf fmt av hew]; exact hia
  have h4 : (FPNumDecode fmt bv).exp_128 fmt = true := by
    rw [exp128_of_not_nan fmt bv hew hnb]; exact hib
  have h5 : ¬((FPNumDecode fmt av).s = (FPNumDecode fmt bv).s) := by
    rw [decode_s_eq_iff fmt ha hb]; exact hsne
  have hdn := recCreate_default_nan fmt hew hmw
  constructor
  · simp [FPAddSpecialCasesMod, h3]
  · simp [FPAddSpecialCasesMod, h1, h2, h3, h4, h5, hdn]

theorem addsc_inf_a (fmt : FPFormat) (rm : FPRoundingMode) (av bv : Nat)
    (hew : 1 ≤ fmt.e_width)
    (ha : av < 2 ^ (1 + fmt.e_width + fmt.m_width))
    (hb : bv < 2 ^ (1 + fmt.e_width + fmt.m_width))
    (hna : fmt.is_nan av = false) (hnb : fmt.is_nan bv = false)
    (hia : fmt.is_inf av = true)
    (hnot : ¬(fmt.is_inf bv = true
      ∧ fmt.get_sign_field av ≠ fmt.get_sign_field bv)) :
    (FPAddSpecialCasesMod fmt rm av bv).out_do_z = true
      ∧ (FPAddSpecialCasesMod fmt rm av bv).oz
          = fmt.inf (decide (fmt.get_sign_field av = 1)) := by
  have h1 : (FPNumDecode fmt av).is_nan fmt = false := by
    rw [decode_is_nan fmt av hew]; exact hna
  have h2 : (FPNumDecode fmt bv).is_nan fmt = false := by
    rw [decode_is_nan fmt bv hew]; exact hnb
  have h3 : (FPNumDecode fmt av).is_inf fmt = true := by
    rw [decode_is_inf fmt av hew]; exact hia
  have h4 : ((FPNumDecode fmt bv).exp_128 fmt
      && decide ((FPNumDecode fmt av).s ≠ (FPNumDecode fmt bv).s)) = false := by
    rw [exp128_of_not_nan fmt bv hew hnb]
    by_cases hib : fmt.is_inf bv = true
    · have hseq : fmt.get_sign_field av = fmt.get_sign_field bv := by
        by_contra hc
        exact hnot ⟨hib, hc⟩
      have h5 : (FPNumDecode fmt av).s = (FPNumDecode fmt bv).s := by
        rw [decode_s_eq_iff fmt ha hb]; exact hseq
      simp [h5]
    · simp [Bool.eq_false_iff.mpr hib]
  have hinfa := recCreate_inf_decoded fmt hew ha
  constructor
  · simp [FPAddSpecialCasesMod, h3]
  · simp [FPAddSpecialCasesMod, h1, h2, h3, h4, hinfa]
    intro he hsne2
    exfalso
    rw [exp128_of_not_nan fmt bv hew hnb] at he
    rw [decode_s_eq_iff fmt ha hb] at hsne2
    exact hnot ⟨he, hsne2⟩

theorem addsc_inf_b (fmt : FPFormat) (rm : FPRoundingMode) (av bv : Nat)
    (hew : 1 ≤ fmt.e_width)
    (hb : bv < 2 ^ (1 + fmt.e_width + fmt.m_width))
    (hna : fmt.is_nan av = false) (hnb : fmt.is_nan bv = false)
    (hia : fmt.is_inf av = false) (hib : fmt.is_inf bv = true) :
    (FPAddSpecialCasesMod fmt rm av bv).out_do_z = true
      ∧ (FPAddSpecialCasesMod fmt rm av bv).oz
          = fmt.inf (decide (fmt.get_sign_field bv = 1)) := by
  have h1 : (FPNumDecode fmt av).is_nan fmt = false := by
    rw [decode_is_nan fmt av hew]; exact hna
  have h2 : (FPNumDecode fmt bv).is_nan fmt = false := by
    rw [decode_is_nan fmt bv hew]; exact hnb
  have h3 : (FPNumDecode fmt av).is_inf fmt = false := by
    rw [decode_is_inf fmt av hew]; exact hia
  have h4 : (FPNumDecode fmt bv).is_inf fmt = true := by
    rw [decode_is_inf fmt bv hew]; exact hib
  have hinfb := recCreate_inf_decoded fmt hew hb
  constructor
  · simp [FPAddSpecialCasesMod, h4]
  · simp [FPAddSpecialCasesMod, h1, h2, h3, h4, hinfb]

theorem addsc_zero_both (fmt : FPFormat) (rm : FPRoundingMode) (av bv : Nat)
    (hew : 1 ≤ fmt.e_width)
    (ha : av < 2 ^ (1 + fmt.e_width + fmt.m_width))
    (hb : bv < 2 ^ (1 + fmt.e_width + fmt.m_width))
    (hza : fmt.is_zero av = true) (hzb : fmt.is_zero bv = true)
    (hseq : fmt.get_sign_field av = fmt.get_sign_field bv) :
    (FPAddSpecialCasesMod fmt rm av bv).out_do_z = true
      ∧ (FPAddSpecialCasesMod fmt rm av bv).oz = av := by
  obtain ⟨hna, hia⟩ := zero_not_nan_inf fmt av hew hza
  obtain ⟨hnb, hib⟩ := zero_not_nan_inf fmt bv hew hzb
  have h1 : (FPNumDecode fmt av).is_nan fmt = false := by
    rw [decode_is_nan fmt av hew]; exact hna
  have h2 : (FPNumDecode fmt bv).is_nan fmt = false := by
    rw [decode_is_nan fmt bv hew]; exact hnb
  have h3 : (FPNumDecode fmt av).is_inf fmt = false := by
    rw [decode_is_inf fmt av hew]; exact hia
  have h4 : (FPNumDecode fmt bv).is_inf fmt = false := by
    rw [decode_is_inf fmt bv hew]; exact hib
  have h5 : (FPNumDecode fmt av).is_zero fmt = true := by
    rw [decode_is_zero fmt av]; exact hza
  have h6 : (FPNumDecode fmt bv).is_zero fmt = true := by
    rw [decode_is_zero fmt bv]; exact hzb
  have h7 : (FPNumDecode fmt av).s = (FPNumDecode fmt bv).s := by
    rw [decode_s_eq_iff fmt ha hb]; exact hseq
  constructor
  · simp [FPAddSpecialCasesMod, h5]
  · simp [FPAddSpecialCasesMod, h1, h2, h3, h4, h5, h6, h7]

theorem addsc_cancel (fmt : FPFormat) (rm : FPRoundingMode) (av bv : Nat)
    (hew : 1 ≤ fmt.e_width)
    (ha : av < 2 ^ (1 + fmt.e_width + fmt.m_width))
    (hb : bv < 2 ^ (1 + fmt.e_width + fmt.m_width))
    (hna : fmt.is_nan av = false) (hnb : fmt.is_nan bv = false)
    (hia : fmt.is_inf av = false) (hib : fmt.is_inf bv = false)
    (hsne : fmt.get_sign_field av ≠ fmt.get_sign_field bv)
    (hef : fmt.get_exponent_field av = fmt.get_exponent_field bv)
    (hmf : fmt.get_mantissa_field av = fmt.get_mantissa_field bv) :
    (FPAddSpecialCasesMod fmt rm av bv).out_do_z = true
      ∧ (FPAddSpecialCasesMod fmt rm av bv).oz = fmt.zero rm.zero_sign := by
  have h1 : (FPNumDecode fmt av).is_nan fmt = false := by
    rw [decode_is_nan fmt av hew]; exact hna
  have h2 : (FPNumDecode fmt bv).is_nan fmt = false := by
    rw [decode_is_nan fmt bv hew]; exact hnb
  have h3 : (FPNumDecode fmt av).is_inf fmt = false := by
    rw [decode_is_inf fmt av hew]; exact hia
  have h4 : (FPNumDecode fmt bv).is_inf fmt = false := by
    rw [decode_is_inf fmt bv hew]; exact hib
  have h5 : ¬((FPNumDecode fmt av).s = (FPNumDecode fmt bv).s) := by
    rw [decode_s_eq_iff fmt ha hb]; exact hsne
  have h6 : (FPNumDecode fmt av).e = (FPNumDecode fmt bv).e := by
    rw [decode_e_eq_iff fmt av bv]; exact hef
  have h7 : (FPNumDecode fmt av).m = (FPNumDecode fmt bv).m := by
    rw [decode_m_eq_iff fmt av bv]; exact hmf
  have hdz := recCreate_N127_zero fmt rm.zero_sign
  constructor
  · simp [FPAddSpecialCasesMod, h5, h6, h7]
  · simp [FPAddSpecialCasesMod, h1, h2, h3, h4, h5, h6, h7]
    have hzs : (FPRoundingMode.make_array
        FPRoundingMode.zero_sign)[rm.value]?.getD false = rm.zero_sign := by
      cases rm <;> rfl
    rw [hzs, hdz]

theorem addsc_zero_a_fwd (fmt : FPFormat) (rm : FPRoundingMode) (av bv : Nat)
    (hew : 1 ≤ fmt.e_width)
    (ha : av < 2 ^ (1 + fmt.e_width + fmt.m_width))
    (hb : bv < 2 ^ (1 + fmt.e_width + fmt.m_width))
    (hza : fmt.is_zero av = true)
    (hnb : fmt.is_nan bv = false) (hib : fmt.is_inf bv = false)
    (hnot4 : ¬(fmt.is_zero bv = true
      ∧ fmt.get_sign_field av = fmt.get_sign_field bv))
    (hnot5 : ¬(fmt.get_sign_field av ≠ fmt.get_sign_field bv
      ∧ fmt.get_exponent_field av = fmt.get_exponent_field bv
      ∧ fmt.get_mantissa_field av = fmt.get_mantissa_field bv)) :
    (FPAddSpecialCasesMod fmt rm av bv).out_do_z = true
      ∧ (FPAddSpecialCasesMod fmt rm av bv).oz = bv := by
  obtain ⟨hna, hia⟩ := zero_not_nan_inf fmt av hew hza
  have h1 : (FPNumDecode fmt av).is_nan fmt = false := by
    rw [decode_is_nan fmt av hew]; exact hna
  have h2 : (FPNumDecode fmt bv).is_nan fmt = false := by
    rw [decode_is_nan fmt bv hew]; exact hnb
  have h3 : (FPNumDecode fmt av).is_inf fmt = false := by
    rw [decode_is_inf fmt av hew]; exact hia
  have h4 : (FPNumDecode fmt bv).is_inf fmt = false := by
    rw [decode_is_inf fmt bv hew]; exact hib
  have h5 : (FPNumDecode fmt av).is_zero fmt = true := by
    rw [decode_is_zero fmt av]; exact hza
  have haeq : ¬(¬(FPNumDecode fmt av).s = (FPNumDecode fmt bv).s
      ∧ (FPNumDecode fmt av).m = (FPNumDecode fmt bv).m
      ∧ (FPNumDecode fmt av).e = (FPNumDecode fmt bv).e) := by
    rintro ⟨hs, hm, he⟩
    rw [decode_s_eq_iff fmt ha hb] at hs
    rw [decode_m_eq_iff fmt av bv] at hm
    rw [decode_e_eq_iff fmt av bv] at he
    exact hnot5 ⟨hs, he, hm⟩
  have habz : ¬((FPNumDecode fmt bv).is_zero fmt = true
      ∧ (FPNumDecode fmt av).s = (FPNumDecode fmt bv).s) := by
    rintro ⟨hz, hs⟩
    rw [decode_is_zero fmt bv] at hz
    rw [decode_s_eq_iff fmt ha hb] at hs
    exact hnot4 ⟨hz, hs⟩
  constructor
  · simp [FPAddSpecialCasesMod, h5]
  · by_cases hs : (FPNumDecode fmt av).s = (FPNumDecode fmt bv).s
    · -- same sign: case 4 (both zero) cannot fire, case 5 needs sign mismatch
      have hzb : (FPNumDecode fmt bv).is_zero fmt = false := by
        rw [← Bool.not_eq_true]
        intro hc
        exact habz ⟨hc, hs⟩
      simp [FPAddSpecialCasesMod, h1, h2, h3, h4, h5, hzb, hs]
    · -- opposite signs: the cancellation test must fail on the fields
      have hfields : ¬((FPNumDecode fmt av).m = (FPNumDecode fmt bv).m
          ∧ (FPNumDecode fmt av).e = (FPNumDecode fmt bv).e) := by
        rintro ⟨hm, he⟩
        exact haeq ⟨hs, hm, he⟩
      by_cases hm : (FPNumDecode fmt av).m = (FPNumDecode fmt bv).m
      · have he : ¬(FPNumDecode fmt av).e = (FPNumDecode fmt bv).e := by
          intro hc
          exact hfields ⟨hm, hc⟩
        simp [FPAddSpecialCasesMod, h1, h2, h3, h4, h5, hs, hm, he]
      · simp [FPAddSpecialCasesMod, h1, h2, h3, h4, h5, hs, hm]

theorem addsc_zero_b_fwd (fmt : FPFormat) (rm : FPRoundingMode) (av bv : Nat)
    (hew : 1 ≤ fmt.e_width)
    (hna : fmt.is_nan av = false) (hia : fmt.is_inf av = false)
    (hza : fmt.is_zero av = false) (hzb : fmt.is_zero bv = true) :
    (FPAddSpecialCasesMod fmt rm av bv).out_do_z = true
      ∧ (FPAddSpecialCasesMod fmt rm av bv).oz = av := by
  obtain ⟨hnb, hib⟩ := zero_not_nan_inf fmt bv hew hzb
  have h1 : (FPNumDecode fmt av).is_nan fmt = false := by
    rw [decode_is_nan fmt av hew]; exact hna
  have h2 : (FPNumDecode fmt bv).is_nan fmt = false := by
    rw [decode_is_nan fmt bv hew]; exact hnb
  have h3 : (FPNumDecode fmt av).is_inf fmt = false := by
    rw [decode_is_inf fmt av hew]; exact hia
  have h4 : (FPNumDecode fmt bv).is_inf fmt = false := by
    rw [decode_is_inf fmt bv hew]; exact hib
  have h5 : (FPNumDecode fmt av).is_zero fmt = false := by
    rw [decode_is_zero fmt av]; exact hza
  have h6 : (FPNumDecode fmt bv).is_zero fmt = true := by
    rw [decode_is_zero fmt bv]; exact hzb
  -- the cancellation fields test would force `a` to be zero as well
  have haeq : ¬((FPNumDecode fmt av).m = (FPNumDecode fmt bv).m
      ∧ (FPNumDecode fmt av).e = (FPNumDecode fmt bv).e) := by
    rintro ⟨hm, he⟩
    rw [decode_m_eq_iff fmt av bv] at hm
    rw [decode_e_eq_iff fmt av bv] at he
    obtain ⟨hefb, hmfb⟩ := (is_zero_iff_fields fmt bv).mp hzb
    have : fmt.is_zero av = true :=
      (is_zero_iff_fields fmt av).mpr ⟨he.trans hefb, hm.trans hmfb⟩
    rw [hza] at this
    exact Bool.false_ne_true this
  constructor
  · simp [FPAddSpecialCasesMod, h6]
  · by_cases hm : (FPNumDecode fmt av).m = (FPNumDecode fmt bv).m
    · have he : ¬(FPNumDecode fmt av).e = (FPNumDecode fmt bv).e := by
        intro hc
        exact haeq ⟨hm, hc⟩
      simp [FPAddSpecialCasesMod, h1, h2, h3, h4, h5, h6, hm, he]
    · simp [FPAddSpecialCasesMod, h1, h2, h3, h4, h5, h6, hm]

theorem addsc_no_bypass (fmt : FPFormat) (rm : FPRoundingMode) (av bv : Nat)
    (hew : 1 ≤ fmt.e_width)
    (ha : av < 2 ^ (1 + fmt.e_width + fmt.m_width))
    (hb : bv < 2 ^ (1 + fmt.e_width + fmt.m_width))
    (hna : fmt.is_nan av = false) (hnb : fmt.is_nan bv = false)
    (hia : fmt.is_inf av = false) (hib : fmt.is_inf bv = false)
    (hza : fmt.is_zero av = false) (hzb : fmt.is_zero bv = false)
    (hnot5 : ¬(fmt.get_sign_field av ≠ fmt.get_sign_field bv
      ∧ fmt.get_exponent_field av = fmt.get_exponent_field bv
      ∧ fmt.get_mantissa_field av = fmt.get_mantissa_field bv)) :
    (FPAddSpecialCasesMod fmt rm av bv).out_do_z = false := by
  have h1 : (FPNumDecode fmt av).is_nan fmt = false := by
    rw [decode_is_nan fmt av hew]; exact hna
  have h2 : (FPNumDecode fmt bv).is_nan fmt = false := by
    rw [decode_is_nan fmt bv hew]; exact hnb
  have h3 : (FPNumDecode fmt av).is_inf fmt = false := by
    rw [decode_is_inf fmt av hew]; exact hia
  have h4 : (FPNumDecode fmt bv).is_inf fmt = false := by
    rw [decode_is_inf fmt bv hew]; exact hib
  have h5 : (FPNumDecode fmt av).is_zero fmt = false := by
    rw [decode_is_zero fmt av]; exact hza
  have h6 : (FPNumDecode fmt bv).is_zero fmt = false := by
    rw [decode_is_zero fmt bv]; exact hzb
  by_cases hs : (FPNumDecode fmt av).s = (FPNumDecode fmt bv).s
  · simp [FPAddSpecialCasesMod, h1, h2, h3, h4, h5, h6, hs]
  · have hfields : ¬((FPNumDecode fmt av).m = (FPNumDecode fmt bv).m
        ∧ (FPNumDecode fmt av).e = (FPNumDecode fmt bv).e) := by
      rintro ⟨hm, he⟩
      rw [decode_m_eq_iff fmt av bv] at hm
      rw [decode_e_eq_iff fmt av bv] at he
      have hs2 : ¬(fmt.get_sign_field av = fmt.get_sign_field bv) := by
        rw [← decode_s_eq_iff fmt ha hb]
        exact hs
      exact hnot5 ⟨hs2, he, hm⟩
    by_cases hm : (FPNumDecode fmt av).m = (FPNumDecode fmt bv).m
    · have he : ¬(FPNumDecode fmt av).e = (FPNumDecode fmt bv).e := by
        intro hc
        exact hfields ⟨hm, hc⟩
      simp [FPAddSpecialCasesMod, h1, h2, h3, h4, h5, h6, hs, hm, he]
    · simp [FPAddSpecialCasesMod, h1, h2, h3, h4, h5, h6, hs, hm]

/-! ## Claim C4 -/

/-- C4: the addition special-cases stage decides its bypass in priority
order, highest first: (1) a NaN gives the quiet-NaN of `a`; (2) else a NaN
`b` gives the quiet-NaN of `b`; (3) else `a` infinite with `b` infinite of
opposite sign gives the default quiet NaN; (4) else `a` infinite gives
infinity with `a`'s sign; (5) else `b` infinite gives infinity with `b`'s
sign; (6) both zero with matching sign gives that zero preserved; (7) exact
negations (equal exponent and mantissa fields, opposite signs) give zero
with sign `zero_sign(rm)`; (8) else `a` zero forwards `b` unchanged;
(9) else `b` zero forwards `a` unchanged; (10) otherwise no bypass.  In
particular `add(+0,+0) = +0`, `add(-0,-0) = -0`, and `add(+0,-0)` is a zero
with sign `zero_sign(rm)`. -/
theorem claim_C4 (fmt : FPFormat) (rm : FPRoundingMode) (av bv : Nat)
    (hew : 1 ≤ fmt.e_width) (hmw : 1 ≤ fmt.m_width)
    (ha : av < 2 ^ (1 + fmt.e_width + fmt.m_width))
    (hb : bv < 2 ^ (1 + fmt.e_width + fmt.m_width)) :
    (fmt.is_nan av = true →
      (FPAddSpecialCasesMod fmt rm av bv).out_do_z = true
        ∧ (FPAddSpecialCasesMod fmt rm av bv).oz = fmt.to_quiet_nan av)
    ∧ (fmt.is_nan av = false → fmt.is_nan bv = true →
      (FPAddSpecialCasesMod fmt rm av bv).out_do_z = true
        ∧ (FPAddSpecialCasesMod fmt rm av bv).oz = fmt.to_quiet_nan bv)
    ∧ (fmt.is_nan av = false → fmt.is_nan bv = false →
      fmt.is_inf av = true → fmt.is_inf bv = true →
      fmt.get_sign_field av ≠ fmt.get_sign_field bv →
      (FPAddSpecialCasesMod fmt rm av bv).out_do_z = true
        ∧ (FPAddSpecialCasesMod fmt rm av bv).oz = fmt.quiet_nan false)
    ∧ (fmt.is_nan av = false → fmt.is_nan bv = false →
      fmt.is_inf av = true →
      ¬(fmt.is_inf bv = true ∧ fmt.get_sign_field av ≠ fmt.get_sign_field bv) →
      (FPAddSpecialCasesMod fmt rm av bv).out_do_z = true
        ∧ (FPAddSpecialCasesMod fmt rm av bv).oz
            = fmt.inf (decide (fmt.get_sign_field av = 1)))
    ∧ (fmt.is_nan av = false → fmt.is_nan bv = false →
      fmt.is_inf av = false → fmt.is_inf bv = true →
      (FPAddSpecialCasesMod fmt rm av bv).out_do_z = true
        ∧ (FPAddSpecialCasesMod fmt rm av bv).oz
            = fmt.inf (decide (fmt.get_sign_field bv = 1)))
    ∧ (fmt.is_zero av = true → fmt.is_zero bv = true →
      fmt.get_sign_field av = fmt.get_sign_field bv →
      (FPAddSpecialCasesMod fmt rm av bv).out_do_z = true
        ∧ (FPAddSpecialCasesMod fmt rm av bv).oz = av)
    ∧ (fmt.is_nan av = false → fmt.is_nan bv = false →
      fmt.is_inf av = false → fmt.is_inf bv = false →
      fmt.get_sign_field av ≠ fmt.get_sign_field bv →
      fmt.get_exponent_field av = fmt.get_exponent_field bv →
      fmt.get_mantissa_field av = fmt.get_mantissa_field bv →
      (FPAddSpecialCasesMod fmt rm av bv).out_do_z = true
        ∧ (FPAddSpecialCasesMod fmt rm av bv).oz = fmt.zero rm.zero_sign)
    ∧ (fmt.is_zero av = true →
      fmt.is_nan bv = false → fmt.is_inf bv = false →
      ¬(fmt.is_zero bv = true
        ∧ fmt.get_sign_field av = fmt.get_sign_field bv) →
      ¬(fmt.get_sign_field av ≠ fmt.get_sign_field bv
        ∧ fmt.get_exponent_field av = fmt.get_exponent_field bv
        ∧ fmt.get_mantissa_field av = fmt.get_mantissa_field bv) →
      (FPAddSpecialCasesMod fmt rm av bv).out_do_z = true
        ∧ (FPAddSpecialCasesMod fmt rm av bv).oz = bv)
    ∧ (fmt.is_nan av = false → fmt.is_inf av = false →
      fmt.is_zero av = false → fmt.is_zero bv = true →
      (FPAddSpecialCasesMod fmt rm av bv).out_do_z = true
        ∧ (FPAddSpecialCasesMod fmt rm av bv).oz = av)
    ∧ (fmt.is_nan av = false → fmt.is_nan bv = false →
      fmt.is_inf av = false → fmt.is_inf bv = false →
      fmt.is_zero av = false → fmt.is_zero bv = false →
      ¬(fmt.get_sign_field av ≠ fmt.get_sign_field bv
        ∧ fmt.get_exponent_field av = fmt.get_exponent_field bv
        ∧ fmt.get_mantissa_field av = fmt.get_mantissa_field bv) →
      (FPAddSpecialCasesMod fmt rm av bv).out_do_z = false)
    ∧ ((FPAddSpecialCasesMod fmt rm (fmt.zero false) (fmt.zero false)).oz
          = fmt.zero false
      ∧ (FPAddSpecialCasesMod fmt rm (fmt.zero true) (fmt.zero true)).oz
          = fmt.zero true
      ∧ (FPAddSpecialCasesMod fmt rm (fmt.zero false) (fmt.zero true)).oz
          = fmt.zero rm.zero_sign) := by
  refine ⟨?_, ?_, ?_, ?_, ?_, ?_, ?_, ?_, ?_, ?_, ?_, ?_, ?_⟩
  · intro hna
    exact addsc_nan_a fmt rm av bv hew hmw ha hna
  · intro hna hnb
    exact addsc_nan_b fmt rm av bv hew hmw hb hna hnb
  · intro hna hnb hia hib hsne
    exact addsc_inf_inf_nan fmt rm av bv hew hmw ha hb hna hnb hia hib hsne
  · intro hna hnb hia hnot
    exact addsc_inf_a fmt rm av bv hew ha hb hna hnb hia hnot
  · intro hna hnb hia hib
    exact addsc_inf_b fmt rm av bv hew hb hna hnb hia hib
  · intro hza hzb hseq
    exact addsc_zero_both fmt rm av bv hew ha hb hza hzb hseq
  · intro hna hnb hia hib hsne hef hmf
    exact addsc_cancel fmt rm av bv hew ha hb hna hnb hia hib hsne hef hmf
  · intro hza hnb hib hnot4 hnot5
    exact addsc_zero_a_fwd fmt rm av bv hew ha hb hza hnb hib hnot4 hnot5
  · intro hna hia hza hzb
    exact addsc_zero_b_fwd fmt rm av bv hew hna hia hza hzb
  · intro hna hnb hia hib hza hzb hnot5
    exact addsc_no_bypass fmt rm av bv hew ha hb hna hnb hia hib hza hzb hnot5
  · exact (addsc_zero_both fmt rm (fmt.zero false) (fmt.zero false) hew
      (zero_lt_width fmt false) (zero_lt_width fmt false)
      (is_zero_zero fmt false) (is_zero_zero fmt false)
      (by rw [gsf_zero fmt false])).2
  · exact (addsc_zero_both fmt rm (fmt.zero true) (fmt.zero true) hew
      (zero_lt_width fmt true) (zero_lt_width fmt true)
      (is_zero_zero fmt true) (is_zero_zero fmt true)
      (by rw [gsf_zero fmt true])).2
  · have hz0 := is_zero_zero fmt false
    have hz1 := is_zero_zero fmt true
    obtain ⟨hna0, hia0⟩ := zero_not_nan_inf fmt _ hew hz0
    obtain ⟨hna1, hia1⟩ := zero_not_nan_inf fmt _ hew hz1
    exact (addsc_cancel fmt rm (fmt.zero false) (fmt.zero true) hew
      (zero_lt_width fmt false) (zero_lt_width fmt true)
      hna0 hna1 hia0 hia1
      (by rw [gsf_zero fmt false, gsf_zero fmt true]; simp)
      (by rw [ef_zero fmt false, ef_zero fmt true])
      (by rw [mf_zero fmt false, mf_zero fmt true])).2

/-- Witness for C4 at concrete f16 inputs: a signalling NaN plus 1.0 gives
the quieted NaN of `a`; `(+0) + (-0)` in mode RTN gives `-0`. -/
theorem claim_C4_witness :
    ((1 : Nat) ≤ 5) ∧ ((1 : Nat) ≤ 10)
    ∧ ((0x7C01 : Nat) < 2 ^ (1 + 5 + 10)) ∧ ((0x3C00 : Nat) < 2 ^ (1 + 5 + 10))
    ∧ (⟨5, 10, false, true⟩ : FPFormat).is_nan 0x7C01 = true
    ∧ (FPAddSpecialCasesMod ⟨5, 10, false, true⟩ .RNE 0x7C01 0x3C00).out_do_z
        = true
    ∧ (FPAddSpecialCasesMod ⟨5, 10, false, true⟩ .RNE 0x7C01 0x3C00).oz
        = (⟨5, 10, false, true⟩ : FPFormat).to_quiet_nan 0x7C01
    ∧ (FPAddSpecialCasesMod ⟨5, 10, false, true⟩ .RTN
        ((⟨5, 10, false, true⟩ : FPFormat).zero false)
        ((⟨5, 10, false, true⟩ : FPFormat).zero true)).oz
        = (⟨5, 10, false, true⟩ : FPFormat).zero
            (FPRoundingMode.RTN.zero_sign) := by
  have h := claim_C4 ⟨5, 10, false, true⟩ .RNE 0x7C01 0x3C00
    (by decide) (by decide) (by decide) (by decide)
  have h2 := claim_C4 ⟨5, 10, false, true⟩ .RTN 0x8000 0x0001
    (by decide) (by decide) (by decide) (by decide)
  refine ⟨by decide, by decide, by decide, by decide, by decide, ?_, ?_, ?_⟩
  · exact (h.1 (by decide)).1
  · exact (h.1 (by decide)).2
  · obtain ⟨_, _, _, _, _, _, _, _, _, _, _, _, hL3⟩ := h2
    exact hL3

/-! ## FMA (`fpfma/util.py`, `fpfma/special_cases.py`, `fpfma/main_stage.py`) -/

/-- `EXPANDED_MANTISSA_EXTRA_LSBS` (current source value). -/
def EXPANDED_MANTISSA_EXTRA_LSBS : Nat := 16

/-- `EXPANDED_MANTISSA_EXTRA_MSBS` (current source value). -/
def EXPANDED_MANTISSA_EXTRA_MSBS : Nat := 16

/-- `EXPANDED_MANTISSA_SPACE_BETWEEN_SUM_PROD` (current source value). -/
def EXPANDED_MANTISSA_SPACE_BETWEEN_SUM_PROD : Nat := 16

/-- Width of the expanded (signed) mantissa signal. -/
def expanded_mantissa_width (fmt : FPFormat) : Nat :=
  (fmt.fraction_width + 1) * 3
    + EXPANDED_MANTISSA_EXTRA_MSBS
    + EXPANDED_MANTISSA_SPACE_BETWEEN_SUM_PROD
    + EXPANDED_MANTISSA_EXTRA_LSBS

theorem expanded_mantissa_width_pos (fmt : FPFormat) :
    1 ≤ expanded_mantissa_width fmt := by
  rw [expanded_mantissa_width, EXPANDED_MANTISSA_EXTRA_MSBS,
    EXPANDED_MANTISSA_EXTRA_LSBS, EXPANDED_MANTISSA_SPACE_BETWEEN_SUM_PROD]
  omega

/-- The product's effective sign: `sign(a) ^ sign(c) ^ negate_product`. -/
def fmaPSign (fmt : FPFormat) (negate_product : Bool) (a c : Nat) : Bool :=
  (a.testBit (fmt.e_width + fmt.m_width)
    ^^ c.testBit (fmt.e_width + fmt.m_width)) ^^ negate_product

/-- The addend's effective sign: `sign(b) ^ negate_addend`. -/
def fmaBSign (fmt : FPFormat) (negate_addend : Bool) (b : Nat) : Bool :=
  b.testBit (fmt.e_width + fmt.m_width) ^^ negate_addend

/-- Bypass-relevant outputs of the FMA special-cases stage.  The
exponent/mantissa datapath outputs (`exponent`, `a_mantissa`, `b_mantissa`,
`c_mantissa`) are not modelled: no checked claim mentions them. -/
structure FPFMASCBypass where
  do_bypass : Bool
  bypassed_z : Nat
  sign : Bool
  do_sub : Bool

/-- `FPFMASpecialCasesDeNorm.elaborate`, bypass part: the if/elif special-case
priority chain computing `do_bypass` and `bypassed_z` for
`z = a * c + b` (with optional negations of product and addend). -/
def FPFMASpecialCases (fmt : FPFormat) (negate_addend negate_product : Bool)
    (a b c : Nat) : FPFMASCBypass :=
  let p_sign := fmaPSign fmt negate_product a c
  let b_sign := fmaBSign fmt negate_addend b
  let do_sub : Bool := p_sign != b_sign
  if fmt.is_nan a then
    ⟨true, fmt.to_quiet_nan a, p_sign, do_sub⟩
  else if fmt.is_nan b then
    ⟨true, fmt.to_quiet_nan b, p_sign, do_sub⟩
  else if fmt.is_nan c then
    ⟨true, fmt.to_quiet_nan c, p_sign, do_sub⟩
  else if (fmt.is_zero a && fmt.is_inf c) || (fmt.is_inf a && fmt.is_zero c) then
    ⟨true, fmt.quiet_nan false, p_sign, do_sub⟩
  else if (fmt.is_inf a || fmt.is_inf c) && fmt.is_inf b && (p_sign != b_sign) then
    ⟨true, fmt.quiet_nan false, p_sign, do_sub⟩
  else if fmt.is_inf a || fmt.is_inf c then
    ⟨true, fmt.inf p_sign, p_sign, do_sub⟩
  else if fmt.is_inf b then
    ⟨true, fmt.inf b_sign, p_sign, do_sub⟩
  else if (fmt.is_zero a || fmt.is_zero c) && fmt.is_zero b
      && (p_sign == b_sign) then
    ⟨true, fmt.zero p_sign, p_sign, do_sub⟩
  else if (fmt.is_zero a || fmt.is_zero c) && !fmt.is_zero b then
    ⟨true, b ^^^ fmt.zero negate_addend, p_sign, do_sub⟩
  else
    ⟨false, 0, p_sign, do_sub⟩

/-! ## Claim C7 -/

/-- C7: the FMA special-cases stage, after the operand-NaN cases, bypasses
with (i) the default quiet NaN for infinity times zero; (ii) the default
quiet NaN for infinity minus infinity (product and addend both infinite with
opposite effective signs); (iii) a zero of the product's sign when the
product is zero and the addend `b` is zero with matching sign; and (iv) the
(possibly negated) addend forwarded as the final output when the product is
zero and `b` is not zero. -/
theorem claim_C7 (fmt : FPFormat) (na np : Bool) (a b c : Nat)
    (hna : fmt.is_nan a = false) (hnb : fmt.is_nan b = false)
    (hnc : fmt.is_nan c = false) :
    (((fmt.is_zero a && fmt.is_inf c) || (fmt.is_inf a && fmt.is_zero c))
        = true →
      (FPFMASpecialCases fmt na np a b c).do_bypass = true
        ∧ (FPFMASpecialCases fmt na np a b c).bypassed_z
            = fmt.quiet_nan false)
    ∧ (((fmt.is_zero a && fmt.is_inf c) || (fmt.is_inf a && fmt.is_zero c))
        = false →
      (fmt.is_inf a || fmt.is_inf c) = true → fmt.is_inf b = true →
      fmaPSign fmt np a c ≠ fmaBSign fmt na b →
      (FPFMASpecialCases fmt na np a b c).do_bypass = true
        ∧ (FPFMASpecialCases fmt na np a b c).bypassed_z
            = fmt.quiet_nan false)
    ∧ (fmt.is_inf a = false → fmt.is_inf b = false → fmt.is_inf c = false →
      (fmt.is_zero a || fmt.is_zero c) = true → fmt.is_zero b = true →
      fmaPSign fmt np a c = fmaBSign fmt na b →
      (FPFMASpecialCases fmt na np a b c).do_bypass = true
        ∧ (FPFMASpecialCases fmt na np a b c).bypassed_z
            = fmt.zero (fmaPSign fmt np a c))
    ∧ (fmt.is_inf a = false → fmt.is_inf b = false → fmt.is_inf c = false →
      (fmt.is_zero a || fmt.is_zero c) = true → fmt.is_zero b = false →
      (FPFMASpecialCases fmt na np a b c).do_bypass = true
        ∧ (FPFMASpecialCases fmt na np a b c).bypassed_z
            = (b ^^^ fmt.zero na)) := by
  refine ⟨?_, ?_, ?_, ?_⟩
  · intro h4
    constructor
    · simp [FPFMASpecialCases, hna, hnb, hnc, h4]
    · simp [FPFMASpecialCases, hna, hnb, hnc, h4]
  · intro h4 hinfac hinfb hsne
    constructor
    · simp [FPFMASpecialCases, hna, hnb, hnc, h4, hinfac, hinfb, hsne]
    · simp [FPFMASpecialCases, hna, hnb, hnc, h4, hinfac, hinfb, hsne]
  · intro hia hib hic hzac hzb hseq
    constructor
    · simp [FPFMASpecialCases, hna, hnb, hnc, hia, hib, hic, hzac, hzb, hseq]
    · simp [FPFMASpecialCases, hna, hnb, hnc, hia, hib, hic, hzac, hzb, hseq]
  · intro hia hib hic hzac hzb
    constructor
    · simp [FPFMASpecialCases, hna, hnb, hnc, hia, hib, hic, hzac, hzb]
    · simp [FPFMASpecialCases, hna, hnb, hnc, hia, hib, hic, hzac, hzb]

/-- Witness for C7 at concrete f16 inputs: `(+Inf) * 0 + 1` gives the default
quiet NaN, and `0 * 1 + 2.0` forwards the addend `2.0`. -/
theorem claim_C7_witness :
    ((⟨5, 10, false, true⟩ : FPFormat).is_nan 0x7C00 = false)
    ∧ (FPFMASpecialCases ⟨5, 10, false, true⟩ false false
        0x7C00 0x3C00 0x0000).bypassed_z
        = (⟨5, 10, false, true⟩ : FPFormat).quiet_nan false
    ∧ (FPFMASpecialCases ⟨5, 10, false, true⟩ false false
        0x0000 0x4000 0x3C00).bypassed_z = 0x4000 := by
  have h1 := claim_C7 ⟨5, 10, false, true⟩ false false 0x7C00 0x3C00 0x0000
    (by decide) (by decide) (by decide)
  have h2 := claim_C7 ⟨5, 10, false, true⟩ false false 0x0000 0x4000 0x3C00
    (by decide) (by decide) (by decide)
  refine ⟨by decide, (h1.1 (by decide)).2, ?_⟩
  have h3 := (h2.2.2.2 (by decide) (by decide) (by decide) (by decide)
    (by decide)).2
  rw [h3]
  decide

/-! ## The FMA main (multiply-add) stage (`fpfma/main_stage.py`) -/

/-- Input record of `FPFMAMain` (`FPFMASpecialCasesDeNormOutData`): the
product operand mantissas, the aligned addend mantissa (signed expanded
signal), the subtract flag, and the special-cases bypass. -/
structure FPFMAMainIn where
  sign : Bool
  exponent : Int
  a_mantissa : Nat
  b_mantissa : Int
  c_mantissa : Nat
  do_sub : Bool
  bypassed_z : Nat
  do_bypass : Bool
  rm : FPRoundingMode

/-- Output record of `FPFMAMain` (`FPFMAPostCalcData`). -/
structure FPFMAPostCalcData where
  sign : Bool
  exponent : Int
  mantissa : Int
  bypassed_z : Nat
  do_bypass : Bool
  rm : FPRoundingMode

/-- Truncation of a signed value to a `w`-bit two's-complement signal. -/
def signedWrap (w : Nat) (x : Int) : Int :=
  (x + 2 ^ (w - 1)) % 2 ^ w - 2 ^ (w - 1)

/-- `FPFMAMain.elaborate`: compute
`sum = (a_mantissa * c_mantissa) << EXPANDED_MANTISSA_EXTRA_LSBS ± b_mantissa`
(the addend is negated by XOR with all-ones — `x ^ (-1) = -x - 1` — plus a
carry-in of 1, exactly as the hardware does), truncated to the expanded
signed width; on exact cancellation (`sum == 0`) without an earlier bypass,
emit a bypass zero whose sign is the mode's `zero_sign` (looked up in a
`make_array` table); otherwise forward the bypass; the result mantissa is
`|sum|` with the sum's sign folded into the result sign. -/
def FPFMAMain (fmt : FPFormat) (i : FPFMAMainIn) : FPFMAPostCalcData :=
  let W := expanded_mantissa_width fmt
  let product : Nat := i.a_mantissa * i.c_mantissa
  let sum_v : Int :=
    ((product <<< EXPANDED_MANTISSA_EXTRA_LSBS : Nat) : Int)
      + (if i.do_sub then -i.b_mantissa - 1 else i.b_mantissa)
      + (if i.do_sub then 1 else 0)
  let sum : Int := signedWrap W sum_v
  let sum_neg : Bool := decide (sum < 0)
  let sum_zero : Bool := decide (sum = 0)
  let zs : Bool :=
    (FPRoundingMode.make_array FPRoundingMode.zero_sign).getD i.rm.value false
  { sign := sum_neg ^^ i.sign
    exponent := i.exponent
    mantissa := signedWrap W (if sum_neg then -sum else sum)
    bypassed_z := if sum_zero && !i.do_bypass then fmt.zero zs else i.bypassed_z
    do_bypass := if sum_zero && !i.do_bypass then true else i.do_bypass
    rm := i.rm }

/-! ## Claim C10 -/

/-- C10: in the FMA main stage, when no earlier bypass was taken and the
signed sum of the shifted product `a*c` and the (possibly negated) aligned
addend `b` is exactly zero, the stage emits a bypass zero whose sign is the
rounding mode's `zero_sign` — FMA exact cancellation mirrors the add
pipeline's cancellation rule. -/
theorem claim_C10 (fmt : FPFormat) (i : FPFMAMainIn)
    (hnb : i.do_bypass = false)
    (hsum : ((i.a_mantissa * i.c_mantissa) : Int)
        * 2 ^ EXPANDED_MANTISSA_EXTRA_LSBS
        + (if i.do_sub then -i.b_mantissa else i.b_mantissa) = 0) :
    (FPFMAMain fmt i).do_bypass = true
      ∧ (FPFMAMain fmt i).bypassed_z = fmt.zero i.rm.zero_sign := by
  have hW : 1 ≤ expanded_mantissa_width fmt := expanded_mantissa_width_pos fmt
  have hv : ((((i.a_mantissa * i.c_mantissa)
      <<< EXPANDED_MANTISSA_EXTRA_LSBS : Nat)) : Int)
      + (if i.do_sub then -i.b_mantissa - 1 else i.b_mantissa)
      + (if i.do_sub then 1 else 0) = 0 := by
    rw [Nat.shiftLeft_eq]
    push_cast
    rcases Bool.eq_false_or_eq_true i.do_sub with hd | hd <;>
      rw [hd] at hsum ⊢ <;> simp at hsum ⊢ <;> omega
  have hwrap : signedWrap (expanded_mantissa_width fmt) 0 = 0 := by
    rw [signedWrap]
    have hlt : (2 : Int) ^ (expanded_mantissa_width fmt - 1)
        < 2 ^ expanded_mantissa_width fmt := by
      apply pow_lt_pow_right₀ (by norm_num)
      omega
    have hge : (0 : Int) ≤ 2 ^ (expanded_mantissa_width fmt - 1) :=
      le_of_lt (pow_pos (by norm_num) _)
    rw [Int.zero_add, Int.emod_eq_of_lt hge hlt]
    ring
  constructor
  · simp [FPFMAMain, hv, hwrap, hnb]
  · simp [FPFMAMain, hv, hwrap, hnb]
    have hzs : (FPRoundingMode.make_array
        FPRoundingMode.zero_sign)[i.rm.value]?.getD false = i.rm.zero_sign := by
      cases h : i.rm <;> rfl
    rw [hzs]

/-- Witness for C10 at a concrete input: `0 * 0 + 0` (subtracting) in mode
RTN gives a bypass `-0`. -/
theorem claim_C10_witness :
    ((⟨false, 0, 0, 0, 0, true, 0, false, .RTN⟩ : FPFMAMainIn).do_bypass = false)
    ∧ (FPFMAMain ⟨5, 10, false, true⟩
        ⟨false, 0, 0, 0, 0, true, 0, false, .RTN⟩).do_bypass = true
    ∧ (FPFMAMain ⟨5, 10, false, true⟩
        ⟨false, 0, 0, 0, 0, true, 0, false, .RTN⟩).bypassed_z
        = (⟨5, 10, false, true⟩ : FPFormat).zero
            (FPRoundingMode.RTN.zero_sign) := by
  have h := claim_C10 ⟨5, 10, false, true⟩ ⟨false, 0, 0, 0, 0, true, 0, false, .RTN⟩
    rfl (by decide)
  exact ⟨rfl, h.1, h.2⟩

end FPU
